import Mathlib

set_option maxRecDepth 8000

/-!
Verification of the ArrowReg-iOS data-preparation scripts:
`abs_part7_pdf_parser.py` (pattern-based text pipeline) and
`ecfr_xml_to_markdown.py` (tree-based XML pipeline).

Strings are modelled as `List Char` (ASCII fragment of Python 3 `str`;
the regex classes `\s`, `\d`, `\w`, `[A-Z]` are modelled by their ASCII
meaning, which covers every input appearing in the claims).  Each Python
`re.sub` call is embedded as a deterministic left-to-right scanner that
realises the leftmost, non-overlapping, greedy match semantics of the
original pattern; scanners that must skip past a matched region are
written with an explicit fuel argument (structural recursion on `Nat`)
so that every definition evaluates by kernel reduction.  Fuel is always
instantiated with more steps than the scanner can take, namely
`length + 1`, and each step consumes at least one input character.
-/

/-! ## Character classes (ASCII models of the Python regex classes) -/

/-- Python whitespace class `\s` (and `str.strip`), ASCII fragment. -/
def isSpaceP (c : Char) : Bool :=
  c == ' ' || c == '\t' || c == '\n' || c == '\r' || c == '\x0b' || c == '\x0c'

/-- Horizontal whitespace, the regex class used by `[ \t]+`. -/
def isHSpace (c : Char) : Bool :=
  c == ' ' || c == '\t'

/-- Python digit class `\d`, ASCII fragment. -/
def isDigitP (c : Char) : Bool :=
  48 ≤ c.toNat && c.toNat ≤ 57

/-- ASCII uppercase letter, the regex class `[A-Z]` without IGNORECASE. -/
def isUpperAZ (c : Char) : Bool :=
  65 ≤ c.toNat && c.toNat ≤ 90

/-- ASCII lowercase letter, the regex class `[a-z]` without IGNORECASE. -/
def isLowerAZ (c : Char) : Bool :=
  97 ≤ c.toNat && c.toNat ≤ 122

/-- ASCII letter: `[A-Z]` under `re.IGNORECASE`. -/
def isLetterAZ (c : Char) : Bool :=
  isUpperAZ c || isLowerAZ c

/-- Python word class `\w`, ASCII fragment. -/
def isWordP (c : Char) : Bool :=
  isLetterAZ c || isDigitP c || c = '_'

/-- Punctuation class `[.,:;!?]` of the eCFR cleaner. -/
def isPunctCm (c : Char) : Bool :=
  c == '.' || c == ',' || c == ':' || c == ';' || c == '!' || c == '?'

/-- Sentence-end class `[.!?]` of the eCFR cleaner. -/
def isSentEnd (c : Char) : Bool :=
  c == '.' || c == '!' || c == '?'

/-- ASCII lower-casing, the effect of `re.IGNORECASE` on the literals
and classes appearing in the two scripts. -/
def lowerC (c : Char) : Char :=
  if isUpperAZ c then Char.ofNat (c.toNat + 32) else c

/-! ## Basic string utilities shared by both pipelines -/

/-- Python `str.strip()` on a character list. -/
def pyStripL (l : List Char) : List Char :=
  ((l.dropWhile isSpaceP).reverse.dropWhile isSpaceP).reverse

/-- Python `str.strip()`. -/
def pyStrip (s : String) : String :=
  String.mk (pyStripL s.data)

/-- Python `text.split(chr(10))` on a character list: every newline is a
separator and empty parts are kept. -/
def splitNlL : List Char → List (List Char)
  | [] => [[]]
  | c :: cs =>
    if c = '\n' then [] :: splitNlL cs
    else
      match splitNlL cs with
      | h :: t => (c :: h) :: t
      | [] => [[c]]

/-- Python `text.split(chr(10))`. -/
def splitNl (s : String) : List String :=
  (splitNlL s.data).map String.mk

/-- Python `sep.join(parts)`. -/
def joinSep (sep : String) : List String → String
  | [] => ""
  | [s] => s
  | s :: rest => s ++ sep ++ joinSep sep (rest)

/-! ## eCFR pipeline: `ECFRToMarkdownConverter.clean_text`

Source (`ecfr_xml_to_markdown.py`, lines 49-61): strip, then
`re.sub(DOUBLESPACE, ONESPACE)` collapsing every whitespace run to one
space, then removal of whitespace before `[.,:;!?]`, then insertion of a
space between a sentence-ending `[.!?]` and a following `[A-Z]`. -/

/-- Scanner for `re.sub` of pattern `\s+` with replacement one space:
`prev` records whether the previous character was part of a whitespace
run already replaced. -/
def collapseAux : Bool → List Char → List Char
  | _, [] => []
  | prev, c :: cs =>
    if isSpaceP c then
      if prev then collapseAux true cs else ' ' :: collapseAux true cs
    else c :: collapseAux false cs

def collapseWsL (l : List Char) : List Char :=
  collapseAux false l

/-- Scanner for `re.sub` of pattern `\s+([.,:;!?])` with replacement the
captured punctuation mark: `pend` is the reversed pending whitespace run
whose fate depends on the next non-whitespace character. -/
def rmWsAux : List Char → List Char → List Char
  | pend, [] => pend.reverse
  | pend, c :: cs =>
    if isSpaceP c then rmWsAux (c :: pend) cs
    else if isPunctCm c && !pend.isEmpty then c :: rmWsAux [] cs
    else pend.reverse ++ c :: rmWsAux [] cs

def rmWsPunctL (l : List Char) : List Char :=
  rmWsAux [] l

/-- Scanner for `re.sub` of pattern `([.!?])\s*([A-Z])` with replacement
group one, a space, group two.  State `some pend` means a sentence-end
mark was just emitted and `pend` is the reversed whitespace run read
since; on an uppercase letter the run is replaced by one space. -/
def ensureSpAux : Option (List Char) → List Char → List Char
  | none, [] => []
  | some pend, [] => pend.reverse
  | none, c :: cs =>
    if isSentEnd c then c :: ensureSpAux (some []) cs
    else c :: ensureSpAux none cs
  | some pend, c :: cs =>
    if isSpaceP c then ensureSpAux (some (c :: pend)) cs
    else if isUpperAZ c then ' ' :: c :: ensureSpAux none cs
    else if isSentEnd c then pend.reverse ++ c :: ensureSpAux (some []) cs
    else pend.reverse ++ c :: ensureSpAux none cs

def ensureSpaceL (l : List Char) : List Char :=
  ensureSpAux none l

/-- `ECFRToMarkdownConverter.clean_text`.  The Python guard
`if not text` returns the empty string for falsy input. -/
def cleanTextE (s : String) : String :=
  if s = "" then ""
  else String.mk (ensureSpaceL (rmWsPunctL (collapseWsL (pyStripL s.data))))


/-! ## eCFR pipeline: element model and text extraction

An `xml.etree.ElementTree` element: tag, attribute list, text, child
elements, and tail text following the element inside its parent. -/

inductive Elem where
  | mk : String → List (String × String) → Option String → List Elem → Option String → Elem

def Elem.tag : Elem → String
  | .mk t _ _ _ _ => t

def Elem.attrs : Elem → List (String × String)
  | .mk _ a _ _ _ => a

def Elem.text : Elem → Option String
  | .mk _ _ x _ _ => x

def Elem.children : Elem → List Elem
  | .mk _ _ _ ch _ => ch

def Elem.tail : Elem → Option String
  | .mk _ _ _ _ tl => tl

/-- `element.get(key, default)` on an attribute list. -/
def getAttrL (a : List (String × String)) (k d : String) : String :=
  match a.find? (fun p => p.1 == k) with
  | some p => p.2
  | none => d

/-- `element.get(key, default)`. -/
def getAttr (e : Elem) (k d : String) : String :=
  getAttrL e.attrs k d

/-- `element.find(tag)` on a child list: first child with the tag. -/
def findTag (ch : List Elem) (t : String) : Option Elem :=
  ch.find? (fun c => c.tag == t)

/-- `element.find(tag)`: first direct child with the given tag. -/
def findChild (e : Elem) (t : String) : Option Elem :=
  findTag e.children t

/-- `element.findall(tag)` on a child list. -/
def filterTag (ch : List Elem) (t : String) : List Elem :=
  ch.filter (fun c => c.tag == t)

/-- `element.findall(tag)`: all direct children with the given tag. -/
def findAll (e : Elem) (t : String) : List Elem :=
  filterTag e.children t

/-- Contribution of an optional `text` or `tail` field: the Python
truthiness guards `if element.text` and `if child.tail` skip `None` and
the empty string. -/
def optTextPiece : Option String → List String
  | some t => if t = "" then [] else [t]
  | none => []

mutual
/-- `ECFRToMarkdownConverter.extract_text_content` (lines 63-92): the
text of the element, then for every child its rendered piece (emphasis
`E` wrapped according to its `T` code, `I` italic, `SU` superscript,
`SB` subscript, anything else recursed plainly) followed by the tail of
the child; the joined result is passed through `clean_text`. -/
def extractTextContent : Elem → String
  | .mk _ _ txt ch _ =>
    cleanTextE (String.join (optTextPiece txt ++ piecesOf ch))

/-- The per-child pieces of `extract_text_content`, in document order. -/
def piecesOf : List Elem → List String
  | [] => []
  | c :: cs =>
    (if c.tag = "E" then
      let et := getAttr c "T" "03"
      let inner := extractTextContent c
      if et = "03" || et = "04" then ["*" ++ inner ++ "*"]
      else if et = "01" || et = "02" then ["**" ++ inner ++ "**"]
      else [inner]
    else if c.tag = "I" then ["*" ++ extractTextContent c ++ "*"]
    else if c.tag = "SU" then ["^" ++ extractTextContent c ++ "^"]
    else if c.tag = "SB" then ["_" ++ extractTextContent c ++ "_"]
    else [extractTextContent c]) ++
    optTextPiece c.tail ++ piecesOf cs
end

/-- `ECFRToMarkdownConverter.get_heading_level`: the per-type heading
table with fallback 6. -/
def getHeadingLevel (t : String) : Nat :=
  if t = "TITLE" then 1
  else if t = "CHAPTER" then 2
  else if t = "SUBCHAP" then 3
  else if t = "PART" then 4
  else if t = "SUBPART" then 5
  else if t = "SECTION" then 6
  else 6

/-- ASCII upper-casing, Python `str.upper()` on the ASCII fragment. -/
def upperC (c : Char) : Char :=
  if isLowerAZ c then Char.ofNat (c.toNat - 32) else c

def upperStr (s : String) : String :=
  String.mk (s.data.map upperC)

/-- `ECFRToMarkdownConverter.format_section_number` (lines 98-105):
keep a heading already starting with the section sign, prepend the sign
when the heading with dots and dashes removed is a nonempty digit
string (`str.isdigit`), and otherwise return the heading unchanged. -/
def formatSectionNumber (s : String) : String :=
  if (match s.data with | c :: _ => c == '§' | [] => false) then s
  else if (let t := s.data.filter (fun c => c != '.' && c != '-')
           !t.isEmpty && t.all isDigitP) then "§ " ++ s
  else s

/-- Markdown heading marker of a given level, Python `'#' * level`. -/
def headingMarks (n : Nat) : String :=
  String.mk (List.replicate n '#')

/-- `ECFRToMarkdownConverter.process_paragraph` (lines 162-167). -/
def processParagraph (p : Elem) : String :=
  let t := extractTextContent p
  if t = "" then "" else "\n" ++ t ++ "\n"

/-- `ECFRToMarkdownConverter.process_authority` (lines 169-181). -/
def processAuthority (a : Elem) : String :=
  joinSep "\n"
    ((match findChild a "HED" with
      | some h => ["\n**" ++ extractTextContent h ++ "**"]
      | none => []) ++
     (match findChild a "PSPACE" with
      | some p => [extractTextContent p ++ "\n"]
      | none => []))

/-- `ECFRToMarkdownConverter.process_source` (lines 183-195). -/
def processSource (a : Elem) : String :=
  joinSep "\n"
    ((match findChild a "HED" with
      | some h => ["\n**" ++ extractTextContent h ++ "**"]
      | none => []) ++
     (match findChild a "PSPACE" with
      | some p => [extractTextContent p ++ "\n"]
      | none => []))

/-- `ECFRToMarkdownConverter.process_editorial_note` (lines 197-214):
the bolded label, every `PSPACE` or `P` child in document order, and a
closing blank entry when anything was collected. -/
def processEdnote (a : Elem) : String :=
  let pieces :=
    (match findChild a "HED" with
     | some h => ["\n**" ++ extractTextContent h ++ "**"]
     | none => []) ++
    (a.children.filter (fun c => c.tag == "PSPACE" || c.tag == "P")).map
      extractTextContent
  joinSep "\n" (if pieces.isEmpty then pieces else pieces ++ [""])

/-- Does the tag name start with `DIV`?  (`tag.startswith` in the child
recursion guard.) -/
def tagStartsDiv (t : String) : Bool :=
  match t.data with
  | c1 :: c2 :: c3 :: _ => c1 == 'D' && c2 == 'I' && c3 == 'V'
  | _ => false

mutual
/-- `ECFRToMarkdownConverter.process_division` (lines 107-160): heading
line (section headings canonicalised), then authority, source and
editorial-note blocks, then the direct child paragraphs, then the
recursively rendered child divisions whose tag starts with `DIV` and
differs from the tag of the element itself.  The `level` parameter and
the `current_context` updates of the source are write-only state that
no output depends on and are omitted; `div_number` is likewise fetched
but never used. -/
def processDivision : Elem → String
  | .mk tg attrs _ ch _ =>
    let divType := upperStr (getAttrL attrs "TYPE" "")
    joinSep "\n"
      ((match findTag ch "HEAD" with
        | some h =>
          let ht := extractTextContent h
          let ht2 := if divType = "SECTION" then formatSectionNumber ht else ht
          let lvl := Nat.min (getHeadingLevel divType) 6
          ["\n" ++ headingMarks lvl ++ " " ++ ht2 ++ "\n"]
        | none => []) ++
       (match findTag ch "AUTH" with
        | some a => [processAuthority a]
        | none => []) ++
       (match findTag ch "SOURCE" with
        | some a => [processSource a]
        | none => []) ++
       (match findTag ch "EDNOTE" with
        | some a => [processEdnote a]
        | none => []) ++
       (filterTag ch "P").map processParagraph ++
       processChildDivs tg ch)

/-- The recursed child-division blocks of `process_division`, guarded by
`tag.startswith(DIV)` and tag inequality with the parent. -/
def processChildDivs : String → List Elem → List String
  | _, [] => []
  | pt, c :: cs =>
    (if tagStartsDiv c.tag && c.tag != pt then [processDivision c] else []) ++
    processChildDivs pt cs
end

/-! ## ABS pipeline: `ABSPart7Parser.clean_text`

Source (`abs_part7_pdf_parser.py`, lines 46-60): collapse a run of
three or more newlines (blanks between) to two, collapse horizontal
whitespace, rejoin hyphen-newline word splits, delete page-number and
running-header lines, then strip. -/

/-- Case-sensitive literal match: returns the rest after the literal. -/
def stripCs : List Char → List Char → Option (List Char)
  | [], l => some l
  | _ :: _, [] => none
  | p :: ps, c :: cs => if c == p then stripCs ps cs else none

/-- Case-insensitive (ASCII) literal match, for patterns compiled with
`re.IGNORECASE`. -/
def stripCi : List Char → List Char → Option (List Char)
  | [], l => some l
  | _ :: _, [] => none
  | p :: ps, c :: cs => if lowerC c == lowerC p then stripCi ps cs else none

/-- Scanner for `re.sub` of the newline-collapse pattern (a newline,
blanks, a newline, blanks, a newline) with replacement two newlines.
A match starting at a newline exists exactly when the maximal
whitespace run following it contains at least two more newlines; the
greedy extent then reaches the last newline of that run, so the
replacement keeps any trailing blanks of the run. -/
def nlCollapseAux : Nat → List Char → List Char
  | 0, l => l
  | _ + 1, [] => []
  | fuel + 1, c :: cs =>
    if c = '\n' then
      let run := cs.takeWhile isSpaceP
      let rest := cs.dropWhile isSpaceP
      if 2 ≤ run.count '\n' then
        '\n' :: '\n' :: ((run.reverse.takeWhile (fun d => d != '\n')).reverse
          ++ nlCollapseAux fuel rest)
      else '\n' :: nlCollapseAux fuel cs
    else c :: nlCollapseAux fuel cs

def nlCollapse (l : List Char) : List Char :=
  nlCollapseAux (l.length + 1) l

/-- Scanner for `re.sub` of pattern `[ \t]+` with replacement one
space. -/
def hwsCollapseAux : Nat → List Char → List Char
  | 0, l => l
  | _ + 1, [] => []
  | fuel + 1, c :: cs =>
    if isHSpace c then ' ' :: hwsCollapseAux fuel (cs.dropWhile isHSpace)
    else c :: hwsCollapseAux fuel cs

def hwsCollapse (l : List Char) : List Char :=
  hwsCollapseAux (l.length + 1) l

/-- Scanner for `re.sub` of the hyphenation pattern (a word, a hyphen,
blanks containing a newline, a word) with replacement the two words
joined.  Both word groups are greedy and maximal; after a replacement
scanning resumes past the second word. -/
def hyphenAux : Nat → List Char → List Char
  | 0, l => l
  | _ + 1, [] => []
  | fuel + 1, c :: cs =>
    if isWordP c then
      let w := (c :: cs).takeWhile isWordP
      let r1 := (c :: cs).dropWhile isWordP
      match r1 with
      | '-' :: r2 =>
        let ws := r2.takeWhile isSpaceP
        let r3 := r2.dropWhile isSpaceP
        if ws.contains '\n' then
          match r3 with
          | d :: _ =>
            if isWordP d then
              w ++ r3.takeWhile isWordP ++ hyphenAux fuel (r3.dropWhile isWordP)
            else w ++ '-' :: hyphenAux fuel r2
          | [] => w ++ '-' :: hyphenAux fuel r2
        else w ++ '-' :: hyphenAux fuel r2
      | _ => w ++ hyphenAux fuel r1
    else c :: hyphenAux fuel cs

def hyphenJoin (l : List Char) : List Char :=
  hyphenAux (l.length + 1) l

/-- Lookahead of the boilerplate-line patterns after their leading
newline: blanks, the literal, optionally at least one digit, then a lazy
run of non-newline characters closed by a newline.  Returns the input
rest after the closing newline of the match. -/
def boilerTry (lit : List Char) (needDigit : Bool) (cs : List Char) :
    Option (List Char) :=
  match stripCs lit (cs.dropWhile isSpaceP) with
  | none => none
  | some r2 =>
    let r4 :=
      if needDigit then
        if r2.takeWhile isDigitP = [] then none
        else some (r2.dropWhile isDigitP)
      else some r2
    match r4 with
    | none => none
    | some r5 =>
      match r5.dropWhile (fun d => d != '\n') with
      | '\n' :: r6 => some r6
      | _ => none

/-- Scanner for the three boilerplate `re.sub` calls (`Page` + digits,
`ABS`, `PART 7`), each replacing a whole matched line by one newline.
The closing newline is part of the match, so consecutive boilerplate
lines are not all removed by one pass, exactly as in `re.sub`. -/
def boilerAux (lit : List Char) (needDigit : Bool) : Nat → List Char → List Char
  | 0, l => l
  | _ + 1, [] => []
  | fuel + 1, c :: cs =>
    if c = '\n' then
      match boilerTry lit needDigit cs with
      | some rest => '\n' :: boilerAux lit needDigit fuel rest
      | none => '\n' :: boilerAux lit needDigit fuel cs
    else c :: boilerAux lit needDigit fuel cs

def boiler (lit : String) (needDigit : Bool) (l : List Char) : List Char :=
  boilerAux lit.data needDigit (l.length + 1) l

/-- `ABSPart7Parser.clean_text` (lines 46-60), the four normalisation
rules in source order followed by `strip`. -/
def cleanTextA (s : String) : String :=
  let l1 := nlCollapse s.data
  let l2 := hwsCollapse l1
  let l3 := hyphenJoin l2
  let l4 := boiler "Page " true l3
  let l5 := boiler "ABS" false l4
  let l6 := boiler "PART 7" false l5
  String.mk (pyStripL l6)

/-! ## ABS pipeline: page extraction and document assembly -/

/-- `ABSPart7Parser.extract_text_from_page` (lines 35-44): a page whose
extraction raises is modelled as `none` and contributes the empty
string; extraction never propagates the error. -/
def extractTextFromPage : Option String → String
  | none => ""
  | some t => t

/-- The page loop of `ABSPart7Parser.parse_full_document` (lines
210-224): pages are processed strictly in order, a falsy raw text is
skipped, each remaining page is cleaned on its own, falsy cleaned text
is skipped, and the surviving per-page texts are joined by a blank
line. -/
def pageTexts (pages : List (Option String)) : List String :=
  pages.foldr
    (fun p acc =>
      let t := extractTextFromPage p
      if t = "" then acc
      else
        let c := cleanTextA t
        if c = "" then acc else c :: acc)
    []

/-- The `full_text` assembled by `parse_full_document` before section
identification. -/
def parseDocText (pages : List (Option String)) : String :=
  joinSep "\n\n" (pageTexts pages)

/-! ## ABS pipeline: `ABSPart7Parser.identify_sections`

Source lines 62-123.  Every pattern is anchored at both ends and
matched with `re.IGNORECASE` against an already stripped line, so each
is realised by a deterministic maximal-munch parser: a greedy `\d+` or
`\s+` must be the maximal run because backtracking a character of it
leaves a character of the same class where a different class is
required, and the lazy `(.+?)$` group is the whole newline-free rest of
the line. -/

/-- Validity of the `(.+?)$` title group: nonempty and without a
newline (`.` does not match a newline; lines produced by `split` and
`strip` never end in one). -/
def restOk (l : List Char) : Bool :=
  !l.isEmpty && l.all (fun c => c != '\n')

/-- Parser for `(\d+)\s+(.+?)$`, the tail shared by the chapter,
section and main-section patterns. -/
def numTitle (l : List Char) : Option (List Char × List Char) :=
  let ds := l.takeWhile isDigitP
  let r1 := l.dropWhile isDigitP
  if ds.isEmpty then none
  else
    let ws := r1.takeWhile isSpaceP
    let r2 := r1.dropWhile isSpaceP
    if ws.isEmpty then none
    else if restOk r2 then some (ds, r2) else none

/-- Pattern `^CHAPTER (\d+)\s+(.+?)$`. -/
def matchChapter (l : List Char) : Option (List Char × List Char) :=
  (stripCi "CHAPTER ".data l).bind numTitle

/-- Pattern `^SECTION (\d+)\s+(.+?)$`. -/
def matchSection (l : List Char) : Option (List Char × List Char) :=
  (stripCi "SECTION ".data l).bind numTitle

/-- Pattern `^(\d+)\s+(.+?)$`. -/
def matchMain (l : List Char) : Option (List Char × List Char) :=
  numTitle l

/-- Pattern `^(\d+\.\d+)\s+(.+?)$`. -/
def matchSub (l : List Char) : Option (List Char × List Char) :=
  let d1 := l.takeWhile isDigitP
  let r1 := l.dropWhile isDigitP
  if d1.isEmpty then none
  else
    match r1 with
    | c :: r2 =>
      if c == '.' then
        let d2 := r2.takeWhile isDigitP
        let r3 := r2.dropWhile isDigitP
        if d2.isEmpty then none
        else
          let ws := r3.takeWhile isSpaceP
          let r4 := r3.dropWhile isSpaceP
          if ws.isEmpty then none
          else if restOk r4 then some (d1 ++ '.' :: d2, r4) else none
      else none
    | [] => none

/-- Pattern `^(\d+\.\d+\.\d+)\s+(.+?)$`. -/
def matchSubsub (l : List Char) : Option (List Char × List Char) :=
  let d1 := l.takeWhile isDigitP
  let r1 := l.dropWhile isDigitP
  if d1.isEmpty then none
  else
    match r1 with
    | c :: r2 =>
      if c == '.' then
        let d2 := r2.takeWhile isDigitP
        let r3 := r2.dropWhile isDigitP
        if d2.isEmpty then none
        else
          match r3 with
          | c2 :: r4 =>
            if c2 == '.' then
              let d3 := r4.takeWhile isDigitP
              let r5 := r4.dropWhile isDigitP
              if d3.isEmpty then none
              else
                let ws := r5.takeWhile isSpaceP
                let r6 := r5.dropWhile isSpaceP
                if ws.isEmpty then none
                else if restOk r6 then
                  some (d1 ++ '.' :: d2 ++ '.' :: d3, r6)
                else none
            else none
          | [] => none
      else none
    | [] => none

/-- Pattern `^([A-Z])\.\s+(.+?)$` (IGNORECASE widens the class to every
ASCII letter). -/
def matchItem : List Char → Option (List Char × List Char)
  | c :: c2 :: r =>
    if isLetterAZ c && c2 == '.' then
      let ws := r.takeWhile isSpaceP
      let r2 := r.dropWhile isSpaceP
      if ws.isEmpty then none
      else if restOk r2 then some ([c], r2) else none
    else none
  | _ => none

/-- The dash class `[-‚Äì]` of the table and figure patterns, with the
three literal characters present in the source file. -/
def dashClass (c : Char) : Bool :=
  c == '-' || c == '‚' || c == 'Ä' || c == 'ì'

/-- Fueled parser for the `(?:\.\d+)*` tail of a dotted number. -/
def dotTailAux : Nat → List Char → (List Char × List Char)
  | 0, l => ([], l)
  | fuel + 1, l =>
    match l with
    | '.' :: r =>
      let ds := r.takeWhile isDigitP
      if ds.isEmpty then ([], l)
      else
        let p := dotTailAux fuel (r.dropWhile isDigitP)
        ('.' :: (ds ++ p.1), p.2)
    | _ => ([], l)

/-- Parser for `^LIT (\d+(?:\.\d+)*)\s*[-‚Äì]\s*(.+?)$`, shared by the
table and figure patterns. -/
def matchTabFig (lit : List Char) (l : List Char) :
    Option (List Char × List Char) :=
  match stripCi lit l with
  | none => none
  | some r1 =>
    let d1 := r1.takeWhile isDigitP
    if d1.isEmpty then none
    else
      let p := dotTailAux r1.length (r1.dropWhile isDigitP)
      match p.2.dropWhile isSpaceP with
      | d :: r3 =>
        if dashClass d then
          let r4 := r3.dropWhile isSpaceP
          if restOk r4 then some (d1 ++ p.1, r4) else none
        else none
      | [] => none

/-- Pattern `^TABLE (\d+(?:\.\d+)*)\s*[-‚Äì]\s*(.+?)$`. -/
def matchTable (l : List Char) : Option (List Char × List Char) :=
  matchTabFig "TABLE ".data l

/-- Pattern `^FIGURE (\d+(?:\.\d+)*)\s*[-‚Äì]\s*(.+?)$`. -/
def matchFigure (l : List Char) : Option (List Char × List Char) :=
  matchTabFig "FIGURE ".data l

def tagC (ty : String) : Option (List Char × List Char) →
    Option (String × List Char × List Char) :=
  Option.map (fun p => (ty, p.1, p.2))

/-- First-match classification of a stripped line against the pattern
list in the order written in the source (lines 67-76): chapter,
section, main section, subsection, subsubsection, item, table,
figure. -/
def codeClassify (l : List Char) : Option (String × List Char × List Char) :=
  tagC "chapter" (matchChapter l) <|>
  tagC "section" (matchSection l) <|>
  tagC "main_section" (matchMain l) <|>
  tagC "subsection" (matchSub l) <|>
  tagC "subsubsection" (matchSubsub l) <|>
  tagC "item" (matchItem l) <|>
  tagC "table" (matchTable l) <|>
  tagC "figure" (matchFigure l)

/-- First-match classification in the priority order stated by the
spec: chapter, section, table, figure, numeric x.y.z, numeric x.y, bare
numeric x, single letter with period. -/
def specClassify (l : List Char) : Option (String × List Char × List Char) :=
  tagC "chapter" (matchChapter l) <|>
  tagC "section" (matchSection l) <|>
  tagC "table" (matchTable l) <|>
  tagC "figure" (matchFigure l) <|>
  tagC "subsubsection" (matchSubsub l) <|>
  tagC "subsection" (matchSub l) <|>
  tagC "main_section" (matchMain l) <|>
  tagC "item" (matchItem l)

/-- The section dictionary built by `identify_sections`. -/
structure StructuralUnit where
  type : String
  number : String
  title : String
  content : String
  full_header : String
deriving DecidableEq, Repr

/-- One iteration of the line loop of `identify_sections` (lines
82-116): strip the line, skip it when blank, close the open unit on a
pattern match (append it only when the buffer is nonempty), and buffer
a non-matching line. -/
def identStep (st : Option StructuralUnit × List String × List StructuralUnit)
    (raw : String) : Option StructuralUnit × List String × List StructuralUnit :=
  let line := pyStrip raw
  if line = "" then st
  else
    match codeClassify line.data with
    | some (ty, num, title) =>
      let acc2 :=
        match st.1 with
        | some u =>
          if st.2.1.isEmpty then st.2.2
          else st.2.2 ++ [{ u with content := pyStrip (joinSep "\n" st.2.1) }]
        | none => st.2.2
      (some { type := ty, number := String.mk num,
              title := pyStrip (String.mk title), content := "",
              full_header := line }, [], acc2)
    | none => (st.1, st.2.1 ++ [line], st.2.2)

/-- `ABSPart7Parser.identify_sections` (lines 62-123): fold the line
loop over the split text, then flush the last open unit exactly when
its buffer is nonempty. -/
def identifySections (text : String) : List StructuralUnit :=
  let st := (splitNl text).foldl identStep (none, [], [])
  match st.1 with
  | some u =>
    if st.2.1.isEmpty then st.2.2
    else st.2.2 ++ [{ u with content := pyStrip (joinSep "\n" st.2.1) }]
  | none => st.2.2

/-! ## ABS pipeline: `ABSPart7Parser.format_content`

Source lines 168-184: three MULTILINE list-prefix substitutions, three
reference-bolding substitutions, one IGNORECASE bolding of mandatory
terms and one IGNORECASE italicising of permissive terms, applied in
that order.  Scanners track the two context facts a match can depend
on: whether the position is a line start (for `^` under MULTILINE) and
whether the previous character is a word character (for `\b`). -/

/-- The bullet class `[-‚Ä¢]` of the first substitution, with the three
literal characters present in the source file. -/
def bulletClass (c : Char) : Bool :=
  c == '-' || c == '‚' || c == 'Ä' || c == '¢'

/-- Scanner for `re.sub` of `^[-‚Ä¢]\s+` (MULTILINE) with replacement a
dash and a space.  `ls` is true exactly at the start of the string and
directly after a newline; the trailing `\s+` is greedy and may span
newlines, so the flag after a match is recomputed from the last
consumed blank. -/
def sub1Aux : Nat → Bool → List Char → List Char
  | 0, _, l => l
  | _ + 1, _, [] => []
  | fuel + 1, ls, c :: cs =>
    if ls && bulletClass c then
      let ws := cs.takeWhile isSpaceP
      if ws.isEmpty then c :: sub1Aux fuel false cs
      else '-' :: ' ' ::
        sub1Aux fuel (ws.getLast? == some '\n') (cs.dropWhile isSpaceP)
    else c :: sub1Aux fuel (c == '\n') cs

/-- Lookahead for `^\s*\([a-z]\)\s+`: leading blanks (which may span
newlines), a parenthesised lowercase letter, then at least one blank.
Returns the line-start flag after the match and the rest. -/
def sub2Try (l : List Char) : Option (Bool × List Char) :=
  match l.dropWhile isSpaceP with
  | '(' :: a :: ')' :: r2 =>
    if isLowerAZ a then
      let ws := r2.takeWhile isSpaceP
      if ws.isEmpty then none
      else some (ws.getLast? == some '\n', r2.dropWhile isSpaceP)
    else none
  | _ => none

/-- Scanner for `re.sub` of `^\s*\([a-z]\)\s+` (MULTILINE) with
replacement two spaces, a dash and a space. -/
def sub2Aux : Nat → Bool → List Char → List Char
  | 0, _, l => l
  | _ + 1, _, [] => []
  | fuel + 1, ls, c :: cs =>
    if ls then
      match sub2Try (c :: cs) with
      | some (ls2, rest) => ' ' :: ' ' :: '-' :: ' ' :: sub2Aux fuel ls2 rest
      | none => c :: sub2Aux fuel (c == '\n') cs
    else c :: sub2Aux fuel (c == '\n') cs

/-- Lookahead for `^\s*\d+\)\s+`: leading blanks, at least one digit, a
closing parenthesis, then at least one blank. -/
def sub3Try (l : List Char) : Option (Bool × List Char) :=
  let r1 := l.dropWhile isSpaceP
  let ds := r1.takeWhile isDigitP
  if ds.isEmpty then none
  else
    match r1.dropWhile isDigitP with
    | ')' :: r2 =>
      let ws := r2.takeWhile isSpaceP
      if ws.isEmpty then none
      else some (ws.getLast? == some '\n', r2.dropWhile isSpaceP)
    | _ => none

/-- Scanner for `re.sub` of `^\s*\d+\)\s+` (MULTILINE) with replacement
two spaces, the literal `1.` and a space. -/
def sub3Aux : Nat → Bool → List Char → List Char
  | 0, _, l => l
  | _ + 1, _, [] => []
  | fuel + 1, ls, c :: cs =>
    if ls then
      match sub3Try (c :: cs) with
      | some (ls2, rest) =>
        ' ' :: ' ' :: '1' :: '.' :: ' ' :: sub3Aux fuel ls2 rest
      | none => c :: sub3Aux fuel (c == '\n') cs
    else c :: sub3Aux fuel (c == '\n') cs

/-- Boundary test for a trailing `\b` after a word character: the rest
must be empty or start with a non-word character. -/
def bOk : List Char → Bool
  | [] => true
  | c :: _ => !isWordP c

/-- Lookahead for `\b(\d+\.\d+\.\d+)\b` at a position whose previous
character is not a word character: three maximal digit runs joined by
dots, followed by a word boundary. -/
def sub4Try (l : List Char) : Option (List Char × List Char) :=
  let d1 := l.takeWhile isDigitP
  if d1.isEmpty then none
  else
    match l.dropWhile isDigitP with
    | '.' :: r2 =>
      let d2 := r2.takeWhile isDigitP
      if d2.isEmpty then none
      else
        match r2.dropWhile isDigitP with
        | '.' :: r4 =>
          let d3 := r4.takeWhile isDigitP
          let r5 := r4.dropWhile isDigitP
          if d3.isEmpty then none
          else if bOk r5 then some (d1 ++ '.' :: d2 ++ '.' :: d3, r5)
          else none
        | _ => none
    | _ => none

/-- Scanner for `re.sub` of `\b(\d+\.\d+\.\d+)\b` with replacement the
match wrapped in double asterisks.  `pw` records whether the previous
character is a word character. -/
def sub4Aux : Nat → Bool → List Char → List Char
  | 0, _, l => l
  | _ + 1, _, [] => []
  | fuel + 1, pw, c :: cs =>
    if !pw && isDigitP c then
      match sub4Try (c :: cs) with
      | some (num, rest) =>
        '*' :: '*' :: num ++ '*' :: '*' :: sub4Aux fuel true rest
      | none => c :: sub4Aux fuel true cs
    else c :: sub4Aux fuel (isWordP c) cs

/-- Lookahead for `\b(LIT \d+)\b` (case-sensitive literal, used with
`Section` and `Chapter`): the literal, a maximal digit run, a word
boundary. -/
def sub56Try (lit : List Char) (l : List Char) :
    Option (List Char × List Char) :=
  match stripCs lit l with
  | none => none
  | some r1 =>
    let ds := r1.takeWhile isDigitP
    if ds.isEmpty then none
    else
      let r2 := r1.dropWhile isDigitP
      if bOk r2 then some (lit ++ ds, r2) else none

/-- Scanner for `re.sub` of `\b(Section \d+)\b` or `\b(Chapter \d+)\b`
with replacement the match wrapped in double asterisks. -/
def sub56Aux (lit : List Char) : Nat → Bool → List Char → List Char
  | 0, _, l => l
  | _ + 1, _, [] => []
  | fuel + 1, pw, c :: cs =>
    if !pw then
      match sub56Try lit (c :: cs) with
      | some (m, rest) =>
        '*' :: '*' :: m ++ '*' :: '*' :: sub56Aux lit fuel true rest
      | none => c :: sub56Aux lit fuel (isWordP c) cs
    else c :: sub56Aux lit fuel (isWordP c) cs

/-- Case-insensitive literal match keeping the original characters of
the input, for the IGNORECASE keyword alternations whose replacement
must preserve the casing of the match. -/
def stripCiKeep : List Char → List Char → Option (List Char × List Char)
  | [], l => some ([], l)
  | _ :: _, [] => none
  | p :: ps, c :: cs =>
    if lowerC c == lowerC p then
      match stripCiKeep ps cs with
      | some (o, r) => some (c :: o, r)
      | none => none
    else none

/-- One keyword alternation attempt at a fixed position: the
alternatives are tried in the order they appear in the pattern, each
requiring a trailing word boundary. -/
def tryKw : List (List Char) → List Char → Option (List Char × List Char)
  | [], _ => none
  | k :: ks, l =>
    match stripCiKeep k l with
    | some (o, r) => if bOk r then some (o, r) else tryKw ks l
    | none => tryKw ks l

/-- Scanner for `re.sub` of a `\b(w1|w2|...)\b` IGNORECASE keyword
pattern wrapping each match in the given emphasis marker. -/
def kwSubAux (kws : List (List Char)) (marker : List Char) :
    Nat → Bool → List Char → List Char
  | 0, _, l => l
  | _ + 1, _, [] => []
  | fuel + 1, pw, c :: cs =>
    if !pw then
      match tryKw kws (c :: cs) with
      | some (o, rest) =>
        marker ++ o ++ marker ++ kwSubAux kws marker fuel true rest
      | none => c :: kwSubAux kws marker fuel (isWordP c) cs
    else c :: kwSubAux kws marker fuel (isWordP c) cs

/-- The mandatory-language alternatives of line 181, in pattern
order. -/
def mandatoryKws : List (List Char) :=
  ["shall".data, "must".data, "required".data, "mandatory".data]

/-- The permissive-language alternatives of line 182, in pattern
order. -/
def permissiveKws : List (List Char) :=
  ["may".data, "optional".data, "recommended".data]

/-- `ABSPart7Parser.format_content` (lines 168-184): the eight
substitutions in source order. -/
def formatContent (s : String) : String :=
  let l1 := sub1Aux (s.data.length + 1) true s.data
  let l2 := sub2Aux (l1.length + 1) true l1
  let l3 := sub3Aux (l2.length + 1) true l2
  let l4 := sub4Aux (l3.length + 1) false l3
  let l5 := sub56Aux "Section ".data (l4.length + 1) false l4
  let l6 := sub56Aux "Chapter ".data (l5.length + 1) false l5
  let l7 := kwSubAux mandatoryKws ['*', '*'] (l6.length + 1) false l6
  let l8 := kwSubAux permissiveKws ['*'] (l7.length + 1) false l7
  String.mk l8

/-- The keyword-emphasis pass of the renderer on its own: the last two
substitutions of `format_content` (lines 181-182). -/
def keywordPass (s : String) : String :=
  String.mk (kwSubAux permissiveKws ['*']
    ((kwSubAux mandatoryKws ['*', '*'] (s.data.length + 1) false s.data).length + 1) false
    (kwSubAux mandatoryKws ['*', '*'] (s.data.length + 1) false s.data))

/-! ## Statement-side definitions

Definitions used only to state properties: a detector for keyword
matches, the block decomposition of a rendered division, and the
whitespace-normalisation predicate. -/

/-- Detector scanning exactly like `kwSubAux`: is there a position at
which the keyword alternation matches?  `re.sub` changes the text
exactly at such positions. -/
def kwScan (kws : List (List Char)) : Nat → Bool → List Char → Bool
  | 0, _, _ => false
  | _ + 1, _, [] => false
  | fuel + 1, pw, c :: cs =>
    if !pw then
      match tryKw kws (c :: cs) with
      | some _ => true
      | none => kwScan kws fuel (isWordP c) cs
    else kwScan kws fuel (isWordP c) cs

/-- Does the mandatory-keyword pattern of line 181 match anywhere? -/
def hasMandatoryKw (s : String) : Bool :=
  kwScan mandatoryKws (s.data.length + 1) false s.data

/-- Does the permissive-keyword pattern of line 182 match anywhere? -/
def hasPermissiveKw (s : String) : Bool :=
  kwScan permissiveKws (s.data.length + 1) false s.data

/-- The heading block of a rendered division, as described by the
spec. -/
def headingBlocks (e : Elem) : List String :=
  match findChild e "HEAD" with
  | some h =>
    let divType := upperStr (getAttr e "TYPE" "")
    let ht := extractTextContent h
    let ht2 := if divType = "SECTION" then formatSectionNumber ht else ht
    ["\n" ++ headingMarks (Nat.min (getHeadingLevel divType) 6) ++ " " ++ ht2 ++ "\n"]
  | none => []

/-- The auxiliary blocks of a rendered division in the fixed order
authority, source, editorial note. -/
def auxBlocks (e : Elem) : List String :=
  (match findChild e "AUTH" with
   | some a => [processAuthority a]
   | none => []) ++
  (match findChild e "SOURCE" with
   | some a => [processSource a]
   | none => []) ++
  (match findChild e "EDNOTE" with
   | some a => [processEdnote a]
   | none => [])

/-- The direct-child paragraph blocks of a rendered division. -/
def paraBlocks (e : Elem) : List String :=
  (findAll e "P").map processParagraph

/-- The recursed child-division blocks of a rendered division. -/
def childDivBlocks (e : Elem) : List String :=
  (e.children.filter (fun c => tagStartsDiv c.tag && c.tag != e.tag)).map
    processDivision

/-- No whitespace character at the head. -/
def noLeadWs : List Char → Bool
  | [] => true
  | c :: _ => !isSpaceP c

/-- No punctuation mark of `[.,:;!?]` at the head. -/
def noLeadPunct : List Char → Bool
  | [] => true
  | c :: _ => !isPunctCm c

/-- No whitespace character at the end. -/
def noTrailWs : List Char → Bool
  | [] => true
  | [c] => !isSpaceP c
  | _ :: c :: t => noTrailWs (c :: t)

/-- No two consecutive whitespace characters. -/
def noDoubleWs : List Char → Bool
  | [] => true
  | [_] => true
  | a :: b :: t => !(isSpaceP a && isSpaceP b) && noDoubleWs (b :: t)

/-- No whitespace character directly before a mark of `[.,:;!?]`. -/
def noWsBeforePunct : List Char → Bool
  | [] => true
  | [_] => true
  | a :: b :: t => !(isSpaceP a && isPunctCm b) && noWsBeforePunct (b :: t)

/-- The whitespace-normalisation contract: no leading or trailing
whitespace, no two consecutive whitespace characters, no whitespace
before punctuation. -/
def wsNormalized (l : List Char) : Bool :=
  noLeadWs l && noTrailWs l && noDoubleWs l && noWsBeforePunct l

/-- The characters already consumed but not yet emitted by
`ensureSpAux`, in input order. -/
def stPend : Option (List Char) → List Char
  | none => []
  | some p => p.reverse

/-! ## Auxiliary lemmas: character classes and whitespace predicates -/

theorem punct_not_ws {c : Char} (h : isPunctCm c = true) : isSpaceP c = false := by
  simp only [isPunctCm, Bool.or_eq_true, beq_iff_eq] at h
  rcases h with ((((h|h)|h)|h)|h)|h <;> subst h <;> decide

theorem sentEnd_punct {c : Char} (h : isSentEnd c = true) : isPunctCm c = true := by
  simp only [isSentEnd, Bool.or_eq_true, beq_iff_eq] at h
  rcases h with (h|h)|h <;> subst h <;> decide

theorem upper_not_ws {c : Char} (h : isUpperAZ c = true) : isSpaceP c = false := by
  cases hsp : isSpaceP c
  · rfl
  · simp only [isSpaceP, Bool.or_eq_true, beq_iff_eq] at hsp
    rcases hsp with ((((h2|h2)|h2)|h2)|h2)|h2 <;> subst h2 <;> exact absurd h (by decide)

theorem upper_not_punct {c : Char} (h : isUpperAZ c = true) : isPunctCm c = false := by
  cases hsp : isPunctCm c
  · rfl
  · simp only [isPunctCm, Bool.or_eq_true, beq_iff_eq] at hsp
    rcases hsp with ((((h2|h2)|h2)|h2)|h2)|h2 <;> subst h2 <;> exact absurd h (by decide)

theorem noDoubleWs_cons (a : Char) (X : List Char) :
    noDoubleWs (a :: X) = ((!isSpaceP a || noLeadWs X) && noDoubleWs X) := by
  cases X with
  | nil => simp [noDoubleWs, noLeadWs]
  | cons b t => simp [noDoubleWs, noLeadWs, Bool.not_and]

theorem noWsBeforePunct_cons (a : Char) (X : List Char) :
    noWsBeforePunct (a :: X) = ((!isSpaceP a || noLeadPunct X) && noWsBeforePunct X) := by
  cases X with
  | nil => simp [noWsBeforePunct, noLeadPunct]
  | cons b t => simp [noWsBeforePunct, noLeadPunct, Bool.not_and]

theorem noTrailWs_cons (a : Char) {X : List Char} (h : X ≠ []) :
    noTrailWs (a :: X) = noTrailWs X := by
  cases X with
  | nil => exact absurd rfl h
  | cons b t => rfl

theorem noLeadWs_append {Y : List Char} (Z : List Char) (h : Y ≠ []) :
    noLeadWs (Y ++ Z) = noLeadWs Y := by
  cases Y with
  | nil => exact absurd rfl h
  | cons b t => rfl

theorem noTrailWs_append_singleton (Y : List Char) (x : Char) :
    noTrailWs (Y ++ [x]) = !isSpaceP x := by
  induction Y with
  | nil => rfl
  | cons a t ih =>
    have hne : t ++ [x] ≠ [] := by simp
    rw [List.cons_append, noTrailWs_cons a hne, ih]

theorem noLeadWs_reverse (l : List Char) : noLeadWs l.reverse = noTrailWs l := by
  induction l with
  | nil => rfl
  | cons a t ih =>
    rw [List.reverse_cons]
    cases ht : t with
    | nil => simp [noLeadWs, noTrailWs]
    | cons b u =>
      have htr : t.reverse ≠ [] := by simp [ht]
      rw [← ht, noLeadWs_append [a] htr, ih, ht, noTrailWs_cons a (by simp)]

theorem noTrailWs_reverse (l : List Char) : noTrailWs l.reverse = noLeadWs l := by
  have h := noLeadWs_reverse l.reverse
  rw [List.reverse_reverse] at h
  exact h.symm

theorem dropWhile_noLead (l : List Char) : noLeadWs (l.dropWhile isSpaceP) = true := by
  induction l with
  | nil => rfl
  | cons a t ih =>
    by_cases h : isSpaceP a = true
    · rw [List.dropWhile_cons, if_pos h]; exact ih
    · rw [List.dropWhile_cons, if_neg h]
      simp only [noLeadWs, Bool.not_eq_eq_eq_not, Bool.not_true]
      simpa using h

theorem noLead_dropWhile_self {l : List Char} (h : noLeadWs l = true) :
    l.dropWhile isSpaceP = l := by
  cases l with
  | nil => rfl
  | cons a t =>
    simp only [noLeadWs, Bool.not_eq_eq_eq_not, Bool.not_true] at h
    simp [List.dropWhile_cons, h]

theorem noLead_of_prefix {Y X : List Char} (h : Y <+: X) (hx : noLeadWs X = true) :
    noLeadWs Y = true := by
  obtain ⟨t, rfl⟩ := h
  cases Y with
  | nil => rfl
  | cons a u => simpa [noLeadWs] using hx

theorem dropWhile_isSuffix (p : Char → Bool) (l : List Char) : l.dropWhile p <:+ l := by
  induction l with
  | nil => exact List.suffix_rfl
  | cons a t ih =>
    by_cases h : p a = true
    · rw [List.dropWhile_cons, if_pos h]; exact ih.trans (List.suffix_cons a t)
    · rw [List.dropWhile_cons, if_neg h]

theorem pyStripL_noLead (l : List Char) : noLeadWs (pyStripL l) = true := by
  unfold pyStripL
  have h1 : (l.dropWhile isSpaceP).reverse.dropWhile isSpaceP <:+
      (l.dropWhile isSpaceP).reverse := dropWhile_isSuffix _ _
  have h2 := List.reverse_prefix.mpr h1
  rw [List.reverse_reverse] at h2
  exact noLead_of_prefix h2 (dropWhile_noLead l)

theorem pyStripL_noTrail (l : List Char) : noTrailWs (pyStripL l) = true := by
  unfold pyStripL
  rw [noTrailWs_reverse]
  exact dropWhile_noLead _

/-! ## Auxiliary lemmas: the whitespace-collapse scanner -/

theorem collapseAux_true_noLead (l : List Char) : noLeadWs (collapseAux true l) = true := by
  induction l with
  | nil => rfl
  | cons c cs ih =>
    by_cases h : isSpaceP c = true
    · have hstep : collapseAux true (c :: cs) = collapseAux true cs := by
        simp [collapseAux, h]
      rw [hstep]; exact ih
    · have hstep : collapseAux true (c :: cs) = c :: collapseAux false cs := by
        simp [collapseAux, h]
      rw [hstep]
      simp only [noLeadWs, Bool.not_eq_eq_eq_not, Bool.not_true]
      simpa using h

theorem collapseAux_noDouble (l : List Char) :
    ∀ prev, noDoubleWs (collapseAux prev l) = true := by
  induction l with
  | nil => intro prev; rfl
  | cons c cs ih =>
    intro prev
    by_cases h : isSpaceP c = true
    · cases prev
      · have hstep : collapseAux false (c :: cs) = ' ' :: collapseAux true cs := by
          simp [collapseAux, h]
        rw [hstep, noDoubleWs_cons]
        have h1 := collapseAux_true_noLead cs
        simp [h1, ih true]
      · have hstep : collapseAux true (c :: cs) = collapseAux true cs := by
          simp [collapseAux, h]
        rw [hstep]; exact ih true
    · have hstep : collapseAux prev (c :: cs) = c :: collapseAux false cs := by
        simp [collapseAux, h]
      rw [hstep, noDoubleWs_cons]
      have hf : isSpaceP c = false := by simpa using h
      simp [hf, ih false]

theorem collapseAux_ne_nil {l : List Char} (prev : Bool)
    (h : l.any (fun c => !isSpaceP c) = true) : collapseAux prev l ≠ [] := by
  induction l generalizing prev with
  | nil => simp at h
  | cons c cs ih =>
    by_cases hc : isSpaceP c = true
    · have h2 : cs.any (fun c => !isSpaceP c) = true := by
        simpa [List.any_cons, hc] using h
      cases prev
      · have hstep : collapseAux false (c :: cs) = ' ' :: collapseAux true cs := by
          simp [collapseAux, hc]
        simp [hstep]
      · have hstep : collapseAux true (c :: cs) = collapseAux true cs := by
          simp [collapseAux, hc]
        rw [hstep]; exact ih true h2
    · have hstep : collapseAux prev (c :: cs) = c :: collapseAux false cs := by
        simp [collapseAux, hc]
      simp [hstep]

theorem last_nonws_any {l : List Char} (h1 : l ≠ []) (h2 : noTrailWs l = true) :
    l.any (fun c => !isSpaceP c) = true := by
  induction l with
  | nil => exact absurd rfl h1
  | cons a t ih =>
    by_cases htne : t = []
    · subst htne
      simp only [noTrailWs] at h2
      simp [List.any_cons, h2]
    · rw [noTrailWs_cons a htne] at h2
      have h3 := ih htne h2
      simp [List.any_cons, h3]

theorem collapseAux_noTrail {l : List Char} (h : noTrailWs l = true) :
    ∀ prev, noTrailWs (collapseAux prev l) = true := by
  induction l with
  | nil => intro prev; rfl
  | cons c cs ih =>
    intro prev
    by_cases hcs : cs = []
    · subst hcs
      have hc2 : isSpaceP c = false := by simpa [noTrailWs] using h
      cases prev <;> simp [collapseAux, hc2, noTrailWs]
    · have ht : noTrailWs cs = true := by rwa [noTrailWs_cons c hcs] at h
      have hany := last_nonws_any hcs ht
      by_cases hc : isSpaceP c = true
      · cases prev
        · have hne := collapseAux_ne_nil (l := cs) true hany
          have hstep : collapseAux false (c :: cs) = ' ' :: collapseAux true cs := by
            simp [collapseAux, hc]
          rw [hstep, noTrailWs_cons ' ' hne]
          exact ih ht true
        · have hstep : collapseAux true (c :: cs) = collapseAux true cs := by
            simp [collapseAux, hc]
          rw [hstep]; exact ih ht true
      · have hne := collapseAux_ne_nil (l := cs) false hany
        have hstep : collapseAux prev (c :: cs) = c :: collapseAux false cs := by
          simp [collapseAux, hc]
        rw [hstep, noTrailWs_cons c hne]
        exact ih ht false

theorem collapse_noLead {l : List Char} (h : noLeadWs l = true) :
    noLeadWs (collapseAux false l) = true := by
  cases l with
  | nil => rfl
  | cons c cs =>
    have hc : isSpaceP c = false := by simpa [noLeadWs] using h
    have hstep : collapseAux false (c :: cs) = c :: collapseAux false cs := by
      simp [collapseAux, hc]
    rw [hstep]
    simp [noLeadWs, hc]

/-! ## Auxiliary lemmas: the punctuation-whitespace scanner -/

theorem noDoubleWs_tail {a : Char} {X : List Char} (h : noDoubleWs (a :: X) = true) :
    noDoubleWs X = true := by
  rw [noDoubleWs_cons, Bool.and_eq_true] at h
  exact h.2

theorem noWsBeforePunct_tail {a : Char} {X : List Char}
    (h : noWsBeforePunct (a :: X) = true) : noWsBeforePunct X = true := by
  rw [noWsBeforePunct_cons, Bool.and_eq_true] at h
  exact h.2

theorem noTrailWs_tail {a : Char} {X : List Char} (h : noTrailWs (a :: X) = true) :
    noTrailWs X = true := by
  by_cases hx : X = []
  · subst hx; rfl
  · rwa [noTrailWs_cons a hx] at h

theorem noDoubleWs_cons_nonws {a : Char} {X : List Char} (ha : isSpaceP a = false)
    (h : noDoubleWs X = true) : noDoubleWs (a :: X) = true := by
  rw [noDoubleWs_cons, ha]
  simp [h]

theorem noWsBeforePunct_cons_nonws {a : Char} {X : List Char} (ha : isSpaceP a = false)
    (h : noWsBeforePunct X = true) : noWsBeforePunct (a :: X) = true := by
  rw [noWsBeforePunct_cons, ha]
  simp [h]

theorem noTrailWs_cons_nonws {a : Char} {X : List Char} (ha : isSpaceP a = false)
    (h : noTrailWs X = true) : noTrailWs (a :: X) = true := by
  by_cases hx : X = []
  · subst hx; simp [noTrailWs, ha]
  · rwa [noTrailWs_cons a hx]

theorem rmWsAux_props (l : List Char) :
    ∀ pend : List Char,
      pend.all isSpaceP = true →
      pend.length ≤ 1 →
      noDoubleWs (pend.reverse ++ l) = true →
      noTrailWs (pend.reverse ++ l) = true →
      noDoubleWs (rmWsAux pend l) = true ∧ noTrailWs (rmWsAux pend l) = true ∧
        noWsBeforePunct (rmWsAux pend l) = true := by
  induction l with
  | nil =>
    intro pend hall hlen hnd hnt
    cases pend with
    | nil => exact ⟨rfl, rfl, rfl⟩
    | cons p pend2 =>
      cases pend2 with
      | nil =>
        exfalso
        have hp : isSpaceP p = true := by simpa using hall
        simp [noTrailWs, hp] at hnt
      | cons q r => simp at hlen
  | cons c cs ih =>
    intro pend hall hlen hnd hnt
    by_cases hws : isSpaceP c = true
    · have hpend : pend = [] := by
        cases pend with
        | nil => rfl
        | cons p pend2 =>
          cases pend2 with
          | nil =>
            exfalso
            have hp : isSpaceP p = true := by simpa using hall
            simp [noDoubleWs, hp, hws] at hnd
          | cons q r => simp at hlen
      subst hpend
      have hstep : rmWsAux [] (c :: cs) = rmWsAux [c] cs := by
        simp [rmWsAux, hws]
      rw [hstep]
      refine ih [c] (by simp [hws]) (by simp) ?_ ?_
      · simpa using hnd
      · simpa using hnt
    · have hwsf : isSpaceP c = false := by simpa using hws
      by_cases hpc : (isPunctCm c && !pend.isEmpty) = true
      · have hstep : rmWsAux pend (c :: cs) = c :: rmWsAux [] cs := by
          simp [rmWsAux, hws, hpc]
        rw [hstep]
        have hnd2 : noDoubleWs cs = true := by
          cases pend with
          | nil => exact noDoubleWs_tail (by simpa using hnd)
          | cons p pend2 =>
            cases pend2 with
            | nil =>
              have h1 : noDoubleWs (p :: c :: cs) = true := by simpa using hnd
              exact noDoubleWs_tail (noDoubleWs_tail h1)
            | cons q r => simp at hlen
        have hnt2 : noTrailWs cs = true := by
          cases pend with
          | nil => exact noTrailWs_tail (by simpa using hnt)
          | cons p pend2 =>
            cases pend2 with
            | nil =>
              have h1 : noTrailWs (p :: c :: cs) = true := by simpa using hnt
              exact noTrailWs_tail (noTrailWs_tail h1)
            | cons q r => simp at hlen
        obtain ⟨o1, o2, o3⟩ := ih [] (by simp) (by simp) (by simpa using hnd2)
          (by simpa using hnt2)
        exact ⟨noDoubleWs_cons_nonws hwsf o1, noTrailWs_cons_nonws hwsf o2,
          noWsBeforePunct_cons_nonws hwsf o3⟩
      · have hstep : rmWsAux pend (c :: cs) = pend.reverse ++ c :: rmWsAux [] cs := by
          simp [rmWsAux, hws, hpc]
        rw [hstep]
        have hnd1 : noDoubleWs (c :: cs) = true := by
          cases pend with
          | nil => simpa using hnd
          | cons p pend2 =>
            cases pend2 with
            | nil => exact noDoubleWs_tail (by simpa using hnd)
            | cons q r => simp at hlen
        have hnt1 : noTrailWs (c :: cs) = true := by
          cases pend with
          | nil => simpa using hnt
          | cons p pend2 =>
            cases pend2 with
            | nil => exact noTrailWs_tail (by simpa using hnt)
            | cons q r => simp at hlen
        obtain ⟨o1, o2, o3⟩ := ih [] (by simp) (by simp)
          (by simpa using noDoubleWs_tail hnd1) (by simpa using noTrailWs_tail hnt1)
        have g1 : noDoubleWs (c :: rmWsAux [] cs) = true := noDoubleWs_cons_nonws hwsf o1
        have g2 : noTrailWs (c :: rmWsAux [] cs) = true := noTrailWs_cons_nonws hwsf o2
        have g3 : noWsBeforePunct (c :: rmWsAux [] cs) = true :=
          noWsBeforePunct_cons_nonws hwsf o3
        cases pend with
        | nil => exact ⟨by simpa using g1, by simpa using g2, by simpa using g3⟩
        | cons p pend2 =>
          cases pend2 with
          | nil =>
            have hp : isSpaceP p = true := by simpa using hall
            have hcp : isPunctCm c = false := by
              by_cases h2 : isPunctCm c = true
              · exfalso; simp [h2] at hpc
              · simpa using h2
            refine ⟨?_, ?_, ?_⟩
            · show noDoubleWs (p :: c :: rmWsAux [] cs) = true
              rw [noDoubleWs_cons]
              simp [hwsf, g1, noLeadWs]
            · show noTrailWs (p :: c :: rmWsAux [] cs) = true
              rw [noTrailWs_cons p (by simp)]
              exact g2
            · show noWsBeforePunct (p :: c :: rmWsAux [] cs) = true
              rw [noWsBeforePunct_cons]
              simp only [noLeadPunct, hcp]
              simp [g3]
          | cons q r => simp at hlen

/-! ## Auxiliary lemmas: the sentence-spacing scanner -/

theorem ensureSpAux_none_head (d : Char) (ds : List Char) :
    ∃ R2, ensureSpAux none (d :: ds) = d :: R2 := by
  by_cases h : isSentEnd d = true
  · exact ⟨ensureSpAux (some []) ds, by simp [ensureSpAux, h]⟩
  · exact ⟨ensureSpAux none ds, by simp [ensureSpAux, h]⟩

theorem ensureSpAux_props (l : List Char) :
    ∀ st : Option (List Char),
      (∀ p, st = some p → p.all isSpaceP = true ∧ p.length ≤ 1) →
      noDoubleWs (stPend st ++ l) = true →
      noTrailWs (stPend st ++ l) = true →
      noWsBeforePunct (stPend st ++ l) = true →
      noDoubleWs (ensureSpAux st l) = true ∧ noTrailWs (ensureSpAux st l) = true ∧
        noWsBeforePunct (ensureSpAux st l) = true := by
  induction l with
  | nil =>
    intro st hst hnd hnt hnp
    cases st with
    | none => exact ⟨rfl, rfl, rfl⟩
    | some pend =>
      obtain ⟨hall, hlen⟩ := hst pend rfl
      cases pend with
      | nil => exact ⟨rfl, rfl, rfl⟩
      | cons p pend2 =>
        cases pend2 with
        | nil =>
          exfalso
          have hp : isSpaceP p = true := by simpa using hall
          simp [stPend, noTrailWs, hp] at hnt
        | cons q r => simp at hlen
  | cons c cs ih =>
    intro st hst hnd hnt hnp
    cases st with
    | none =>
      by_cases hse : isSentEnd c = true
      · have hcp : isPunctCm c = true := sentEnd_punct hse
        have hcw : isSpaceP c = false := punct_not_ws hcp
        have hstep : ensureSpAux none (c :: cs) = c :: ensureSpAux (some []) cs := by
          simp [ensureSpAux, hse]
        rw [hstep]
        obtain ⟨o1, o2, o3⟩ := ih (some []) (by intro p hp; cases hp; exact ⟨rfl, by simp⟩)
          (by simpa [stPend] using noDoubleWs_tail (by simpa [stPend] using hnd))
          (by simpa [stPend] using noTrailWs_tail (by simpa [stPend] using hnt))
          (by simpa [stPend] using noWsBeforePunct_tail (by simpa [stPend] using hnp))
        exact ⟨noDoubleWs_cons_nonws hcw o1, noTrailWs_cons_nonws hcw o2,
          noWsBeforePunct_cons_nonws hcw o3⟩
      · have hstep : ensureSpAux none (c :: cs) = c :: ensureSpAux none cs := by
          simp [ensureSpAux, hse]
        rw [hstep]
        obtain ⟨o1, o2, o3⟩ := ih none (by intro p hp; cases hp)
          (by simpa [stPend] using noDoubleWs_tail (by simpa [stPend] using hnd))
          (by simpa [stPend] using noTrailWs_tail (by simpa [stPend] using hnt))
          (by simpa [stPend] using noWsBeforePunct_tail (by simpa [stPend] using hnp))
        by_cases hcw : isSpaceP c = true
        · have hcs_ne : cs ≠ [] := by
            intro h0
            rw [h0] at hnt
            simp [stPend, noTrailWs, hcw] at hnt
          obtain ⟨d, ds, rfl⟩ : ∃ d ds, cs = d :: ds := by
            cases cs with
            | nil => exact absurd rfl hcs_ne
            | cons d ds => exact ⟨d, ds, rfl⟩
          have hnd0 : noDoubleWs (c :: d :: ds) = true := by simpa [stPend] using hnd
          have hnp0 : noWsBeforePunct (c :: d :: ds) = true := by simpa [stPend] using hnp
          have hd_ws : isSpaceP d = false := by
            rw [noDoubleWs_cons] at hnd0
            simp only [noLeadWs, Bool.and_eq_true, Bool.or_eq_true] at hnd0
            rcases hnd0.1 with h2 | h2
            · simp [hcw] at h2
            · simpa using h2
          have hd_p : isPunctCm d = false := by
            rw [noWsBeforePunct_cons] at hnp0
            simp only [noLeadPunct, Bool.and_eq_true, Bool.or_eq_true] at hnp0
            rcases hnp0.1 with h2 | h2
            · simp [hcw] at h2
            · simpa using h2
          obtain ⟨R2, hR⟩ := ensureSpAux_none_head d ds
          rw [hR] at o1 o2 o3
          refine ⟨?_, ?_, ?_⟩
          · rw [noDoubleWs_cons, hR]
            simp [noLeadWs, hd_ws, o1]
          · rw [hR, noTrailWs_cons c (by simp)]
            exact o2
          · rw [noWsBeforePunct_cons, hR]
            simp [noLeadPunct, hd_p, o3]
        · have hcwf : isSpaceP c = false := by simpa using hcw
          exact ⟨noDoubleWs_cons_nonws hcwf o1, noTrailWs_cons_nonws hcwf o2,
            noWsBeforePunct_cons_nonws hcwf o3⟩
    | some pend =>
      obtain ⟨hall, hlen⟩ := hst pend rfl
      by_cases hcw : isSpaceP c = true
      · have hpend : pend = [] := by
          cases pend with
          | nil => rfl
          | cons p pend2 =>
            cases pend2 with
            | nil =>
              exfalso
              have hp : isSpaceP p = true := by simpa using hall
              simp [stPend, noDoubleWs, hp, hcw] at hnd
            | cons q r => simp at hlen
        subst hpend
        have hstep : ensureSpAux (some []) (c :: cs) = ensureSpAux (some [c]) cs := by
          simp [ensureSpAux, hcw]
        rw [hstep]
        exact ih (some [c]) (by intro p hp; cases hp; exact ⟨by simp [hcw], by simp⟩)
          (by simpa [stPend] using hnd) (by simpa [stPend] using hnt)
          (by simpa [stPend] using hnp)
      · have hcwf : isSpaceP c = false := by simpa using hcw
        have hIH := fun hnd2 hnt2 hnp2 => ih none (by intro p hp; cases hp) hnd2 hnt2 hnp2
        by_cases hup : isUpperAZ c = true
        · have hstep : ensureSpAux (some pend) (c :: cs) = ' ' :: c :: ensureSpAux none cs := by
            simp [ensureSpAux, hcw, hup]
          rw [hstep]
          have hnd2 : noDoubleWs cs = true := by
            cases pend with
            | nil => exact noDoubleWs_tail (by simpa [stPend] using hnd)
            | cons p pend2 =>
              cases pend2 with
              | nil => exact noDoubleWs_tail (noDoubleWs_tail (by simpa [stPend] using hnd))
              | cons q r => simp at hlen
          have hnt2 : noTrailWs cs = true := by
            cases pend with
            | nil => exact noTrailWs_tail (by simpa [stPend] using hnt)
            | cons p pend2 =>
              cases pend2 with
              | nil => exact noTrailWs_tail (noTrailWs_tail (by simpa [stPend] using hnt))
              | cons q r => simp at hlen
          have hnp2 : noWsBeforePunct cs = true := by
            cases pend with
            | nil => exact noWsBeforePunct_tail (by simpa [stPend] using hnp)
            | cons p pend2 =>
              cases pend2 with
              | nil =>
                exact noWsBeforePunct_tail (noWsBeforePunct_tail (by simpa [stPend] using hnp))
              | cons q r => simp at hlen
          obtain ⟨o1, o2, o3⟩ := hIH (by simpa [stPend] using hnd2)
            (by simpa [stPend] using hnt2) (by simpa [stPend] using hnp2)
          have g1 : noDoubleWs (c :: ensureSpAux none cs) = true :=
            noDoubleWs_cons_nonws hcwf o1
          have g2 : noTrailWs (c :: ensureSpAux none cs) = true :=
            noTrailWs_cons_nonws hcwf o2
          have g3 : noWsBeforePunct (c :: ensureSpAux none cs) = true :=
            noWsBeforePunct_cons_nonws hcwf o3
          refine ⟨?_, ?_, ?_⟩
          · rw [noDoubleWs_cons]
            simp [noLeadWs, hcwf, g1]
          · rw [noTrailWs_cons ' ' (by simp)]
            exact g2
          · rw [noWsBeforePunct_cons]
            simp [noLeadPunct, upper_not_punct hup, g3]
        · have hnd2 : noDoubleWs (c :: cs) = true := by
            cases pend with
            | nil => simpa [stPend] using hnd
            | cons p pend2 =>
              cases pend2 with
              | nil => exact noDoubleWs_tail (by simpa [stPend] using hnd)
              | cons q r => simp at hlen
          have hnt2 : noTrailWs (c :: cs) = true := by
            cases pend with
            | nil => simpa [stPend] using hnt
            | cons p pend2 =>
              cases pend2 with
              | nil => exact noTrailWs_tail (by simpa [stPend] using hnt)
              | cons q r => simp at hlen
          have hnp2 : noWsBeforePunct (c :: cs) = true := by
            cases pend with
            | nil => simpa [stPend] using hnp
            | cons p pend2 =>
              cases pend2 with
              | nil => exact noWsBeforePunct_tail (by simpa [stPend] using hnp)
              | cons q r => simp at hlen
          by_cases hse : isSentEnd c = true
          · have hpend : pend = [] := by
              cases pend with
              | nil => rfl
              | cons p pend2 =>
                cases pend2 with
                | nil =>
                  exfalso
                  have hp : isSpaceP p = true := by simpa using hall
                  simp [stPend, noWsBeforePunct, hp, sentEnd_punct hse] at hnp
                | cons q r => simp at hlen
            subst hpend
            have hstep : ensureSpAux (some []) (c :: cs) = c :: ensureSpAux (some []) cs := by
              simp [ensureSpAux, hcw, hup, hse]
            rw [hstep]
            obtain ⟨o1, o2, o3⟩ := ih (some [])
              (by intro p hp; cases hp; exact ⟨rfl, by simp⟩)
              (by simpa [stPend] using noDoubleWs_tail hnd2)
              (by simpa [stPend] using noTrailWs_tail hnt2)
              (by simpa [stPend] using noWsBeforePunct_tail hnp2)
            exact ⟨noDoubleWs_cons_nonws hcwf o1, noTrailWs_cons_nonws hcwf o2,
              noWsBeforePunct_cons_nonws hcwf o3⟩
          · have hstep : ensureSpAux (some pend) (c :: cs) =
                pend.reverse ++ c :: ensureSpAux none cs := by
              simp [ensureSpAux, hcw, hup, hse]
            rw [hstep]
            obtain ⟨o1, o2, o3⟩ := hIH
              (by simpa [stPend] using noDoubleWs_tail hnd2)
              (by simpa [stPend] using noTrailWs_tail hnt2)
              (by simpa [stPend] using noWsBeforePunct_tail hnp2)
            have g1 : noDoubleWs (c :: ensureSpAux none cs) = true :=
              noDoubleWs_cons_nonws hcwf o1
            have g2 : noTrailWs (c :: ensureSpAux none cs) = true :=
              noTrailWs_cons_nonws hcwf o2
            have g3 : noWsBeforePunct (c :: ensureSpAux none cs) = true :=
              noWsBeforePunct_cons_nonws hcwf o3
            cases pend with
            | nil => exact ⟨by simpa using g1, by simpa using g2, by simpa using g3⟩
            | cons p pend2 =>
              cases pend2 with
              | nil =>
                have hcp : isPunctCm c = false := by
                  by_cases h2 : isPunctCm c = true
                  · exfalso
                    have hp : isSpaceP p = true := by simpa using hall
                    simp [stPend, noWsBeforePunct, hp, h2] at hnp
                  · simpa using h2
                refine ⟨?_, ?_, ?_⟩
                · show noDoubleWs (p :: c :: ensureSpAux none cs) = true
                  rw [noDoubleWs_cons]
                  simp [noLeadWs, hcwf, g1]
                · show noTrailWs (p :: c :: ensureSpAux none cs) = true
                  rw [noTrailWs_cons p (by simp)]
                  exact g2
                · show noWsBeforePunct (p :: c :: ensureSpAux none cs) = true
                  rw [noWsBeforePunct_cons]
                  simp [noLeadPunct, hcp, g3]
              | cons q r => simp at hlen

theorem rmWs_noLead {l : List Char} (h : noLeadWs l = true) :
    noLeadWs (rmWsAux [] l) = true := by
  cases l with
  | nil => rfl
  | cons c cs =>
    have hc : isSpaceP c = false := by simpa [noLeadWs] using h
    have hstep : rmWsAux [] (c :: cs) = c :: rmWsAux [] cs := by
      simp [rmWsAux, hc]
    rw [hstep]
    simp [noLeadWs, hc]

theorem ensureSp_noLead {l : List Char} (h : noLeadWs l = true) :
    noLeadWs (ensureSpAux none l) = true := by
  cases l with
  | nil => rfl
  | cons c cs =>
    have hc : isSpaceP c = false := by simpa [noLeadWs] using h
    obtain ⟨R2, hR⟩ := ensureSpAux_none_head c cs
    rw [hR]
    simp [noLeadWs, hc]

theorem cleanTextE_normalized (s : String) : wsNormalized (cleanTextE s).data = true := by
  unfold cleanTextE
  by_cases hs : s = ""
  · simp [hs]
    rfl
  · rw [if_neg hs]
    have h1 : noLeadWs (pyStripL s.data) = true := pyStripL_noLead _
    have h2 : noTrailWs (pyStripL s.data) = true := pyStripL_noTrail _
    have c1 : noDoubleWs (collapseWsL (pyStripL s.data)) = true :=
      collapseAux_noDouble _ false
    have c2 : noTrailWs (collapseWsL (pyStripL s.data)) = true :=
      collapseAux_noTrail h2 false
    have c3 : noLeadWs (collapseWsL (pyStripL s.data)) = true := collapse_noLead h1
    obtain ⟨r1, r2, r3⟩ := rmWsAux_props (collapseWsL (pyStripL s.data)) []
      (by simp) (by simp) (by simpa using c1) (by simpa using c2)
    have r4 : noLeadWs (rmWsPunctL (collapseWsL (pyStripL s.data))) = true :=
      rmWs_noLead c3
    obtain ⟨e1, e2, e3⟩ := ensureSpAux_props
      (rmWsPunctL (collapseWsL (pyStripL s.data))) none
      (by intro p hp; cases hp)
      (by simpa [stPend, rmWsPunctL] using r1)
      (by simpa [stPend, rmWsPunctL] using r2)
      (by simpa [stPend, rmWsPunctL] using r3)
    have e4 : noLeadWs (ensureSpaceL (rmWsPunctL (collapseWsL (pyStripL s.data)))) = true :=
      ensureSp_noLead r4
    show wsNormalized (ensureSpaceL (rmWsPunctL (collapseWsL (pyStripL s.data)))) = true
    simp only [wsNormalized, ensureSpaceL] at *
    simp [e1, e2, e3, e4]

/-! ## Auxiliary lemmas: the keyword scanners -/

theorem kwSub_of_scan_false (kws : List (List Char)) (marker : List Char) :
    ∀ (fuel : Nat) (pw : Bool) (l : List Char),
      kwScan kws fuel pw l = false → kwSubAux kws marker fuel pw l = l := by
  intro fuel
  induction fuel with
  | zero => intro pw l h; rfl
  | succ n ih =>
    intro pw l h
    cases l with
    | nil => rfl
    | cons c cs =>
      cases pw with
      | true =>
        have h2 : kwScan kws n (isWordP c) cs = false := by simpa [kwScan] using h
        simp [kwSubAux, ih _ _ h2]
      | false =>
        cases htk : tryKw kws (c :: cs) with
        | some q => simp [kwScan, htk] at h
        | none =>
          have h2 : kwScan kws n (isWordP c) cs = false := by
            simpa [kwScan, htk] using h
          simp [kwSubAux, htk, ih _ _ h2]

/-! ## Auxiliary lemmas: the section pattern matchers -/

theorem takeWhile_head_of_nonempty {p : Char → Bool} {l : List Char}
    (h : ¬(l.takeWhile p).isEmpty = true) : ∃ c r, l = c :: r ∧ p c = true := by
  cases l with
  | nil => simp at h
  | cons c r =>
    by_cases hc : p c = true
    · exact ⟨c, r, rfl, hc⟩
    · exfalso
      simp [List.takeWhile_cons, hc] at h

theorem numTitle_parts {l : List Char} {p : List Char × List Char}
    (h : numTitle l = some p) :
    ¬(l.takeWhile isDigitP).isEmpty = true ∧
      ∃ c r, l.dropWhile isDigitP = c :: r ∧ isSpaceP c = true := by
  unfold numTitle at h
  by_cases h1 : (l.takeWhile isDigitP).isEmpty = true
  · simp [h1] at h
  · refine ⟨h1, ?_⟩
    by_cases h2 : ((l.dropWhile isDigitP).takeWhile isSpaceP).isEmpty = true
    · simp [h1, h2] at h
    · exact takeWhile_head_of_nonempty h2

theorem matchSub_parts {l : List Char} {p : List Char × List Char}
    (h : matchSub l = some p) :
    ¬(l.takeWhile isDigitP).isEmpty = true ∧
      ∃ r2, l.dropWhile isDigitP = '.' :: r2 ∧
        ¬(r2.takeWhile isDigitP).isEmpty = true ∧
        ∃ c3 r3, r2.dropWhile isDigitP = c3 :: r3 ∧ isSpaceP c3 = true := by
  unfold matchSub at h
  by_cases h1 : (l.takeWhile isDigitP).isEmpty = true
  · simp [h1] at h
  · refine ⟨h1, ?_⟩
    cases hr : l.dropWhile isDigitP with
    | nil => rw [hr] at h; simp [h1] at h
    | cons c r2 =>
      rw [hr] at h
      by_cases hc : (c == '.') = true
      · have hc2 : c = '.' := by simpa using hc
        subst hc2
        refine ⟨r2, rfl, ?_, ?_⟩
        · by_cases h2 : (r2.takeWhile isDigitP).isEmpty = true
          · simp [h1, h2] at h
          · exact h2
        · by_cases h2 : (r2.takeWhile isDigitP).isEmpty = true
          · simp [h1, h2] at h
          · by_cases h3 : ((r2.dropWhile isDigitP).takeWhile isSpaceP).isEmpty = true
            · simp [h1, h2, h3] at h
            · exact takeWhile_head_of_nonempty h3
      · simp [h1, hc] at h

theorem main_excl_sub {l : List Char} {p : List Char × List Char}
    (h : matchMain l = some p) : matchSub l = none := by
  obtain ⟨h1, c, r, hr, hws⟩ := numTitle_parts h
  unfold matchSub
  rw [hr]
  have hc : (c == '.') = false := by
    simp only [beq_eq_false_iff_ne, ne_eq]
    intro h2
    subst h2
    exact absurd hws (by decide)
  simp [h1, hc]

theorem main_excl_subsub {l : List Char} {p : List Char × List Char}
    (h : matchMain l = some p) : matchSubsub l = none := by
  obtain ⟨h1, c, r, hr, hws⟩ := numTitle_parts h
  unfold matchSubsub
  rw [hr]
  have hc : (c == '.') = false := by
    simp only [beq_eq_false_iff_ne, ne_eq]
    intro h2
    subst h2
    exact absurd hws (by decide)
  simp [h1, hc]

theorem sub_excl_subsub {l : List Char} {p : List Char × List Char}
    (h : matchSub l = some p) : matchSubsub l = none := by
  obtain ⟨h1, r2, hr, h2, c3, r3, hr3, hws⟩ := matchSub_parts h
  unfold matchSubsub
  rw [hr]
  have hc : (c3 == '.') = false := by
    simp only [beq_eq_false_iff_ne, ne_eq]
    intro hx
    subst hx
    exact absurd hws (by decide)
  simp [h1, h2, hr3, hc]

theorem digit_not_upper {c : Char} (h : isDigitP c = true) : isUpperAZ c = false := by
  cases h2 : isUpperAZ c
  · rfl
  · exfalso
    simp only [isDigitP, Bool.and_eq_true, decide_eq_true_eq] at h
    simp only [isUpperAZ, Bool.and_eq_true, decide_eq_true_eq] at h2
    omega

theorem digit_lowerC {c : Char} (h : isDigitP c = true) : lowerC c = c := by
  simp [lowerC, digit_not_upper h]

theorem matchTabFig_none_of_digit {c : Char} {r rest : List Char} {p0 : Char}
    (h : isDigitP c = true) (hp : 97 ≤ (lowerC p0).toNat) :
    matchTabFig (p0 :: rest) (c :: r) = none := by
  unfold matchTabFig
  have h1 : (lowerC c == lowerC p0) = false := by
    simp only [beq_eq_false_iff_ne, ne_eq]
    rw [digit_lowerC h]
    intro h2
    have h3 := congrArg Char.toNat h2
    simp only [isDigitP, Bool.and_eq_true, decide_eq_true_eq] at h
    omega
  simp [stripCi, h1]

theorem matchTable_none_of_digit {c : Char} {r : List Char} (h : isDigitP c = true) :
    matchTable (c :: r) = none :=
  matchTabFig_none_of_digit h (by decide)

theorem matchFigure_none_of_digit {c : Char} {r : List Char} (h : isDigitP c = true) :
    matchFigure (c :: r) = none :=
  matchTabFig_none_of_digit h (by decide)

theorem matchItem_parts {l : List Char} {p : List Char × List Char}
    (h : matchItem l = some p) : ∃ c r, l = c :: '.' :: r := by
  cases l with
  | nil => simp [matchItem] at h
  | cons c l2 =>
    cases l2 with
    | nil => simp [matchItem] at h
    | cons c2 r =>
      by_cases h2 : (isLetterAZ c && c2 == '.') = true
      · have h3 : c2 = '.' := by
          have h4 := (Bool.and_eq_true _ _).mp h2
          simpa using h4.2
        subst h3
        exact ⟨c, r, rfl⟩
      · simp [matchItem, h2] at h

theorem matchTabFig_none_of_dot {c : Char} {r rest : List Char} {p0 p1 : Char}
    (hp : (lowerC '.' == lowerC p1) = false) :
    matchTabFig (p0 :: p1 :: rest) (c :: '.' :: r) = none := by
  unfold matchTabFig
  by_cases h1 : (lowerC c == lowerC p0) = true
  · simp [stripCi, h1, hp]
  · simp [stripCi, h1]

theorem matchTable_none_of_dot {c : Char} {r : List Char} :
    matchTable (c :: '.' :: r) = none :=
  matchTabFig_none_of_dot (by decide)

theorem matchFigure_none_of_dot {c : Char} {r : List Char} :
    matchFigure (c :: '.' :: r) = none :=
  matchTabFig_none_of_dot (by decide)

theorem matchSub_head {l : List Char} {p : List Char × List Char}
    (h : matchSub l = some p) : ∃ c r, l = c :: r ∧ isDigitP c = true := by
  obtain ⟨h1, _⟩ := matchSub_parts h
  exact takeWhile_head_of_nonempty h1

theorem matchSubsub_head {l : List Char} {p : List Char × List Char}
    (h : matchSubsub l = some p) : ∃ c r, l = c :: r ∧ isDigitP c = true := by
  unfold matchSubsub at h
  by_cases h1 : (l.takeWhile isDigitP).isEmpty = true
  · simp [h1] at h
  · exact takeWhile_head_of_nonempty h1

theorem matchMain_head {l : List Char} {p : List Char × List Char}
    (h : matchMain l = some p) : ∃ c r, l = c :: r ∧ isDigitP c = true := by
  obtain ⟨h1, _⟩ := numTitle_parts h
  exact takeWhile_head_of_nonempty h1

/-! ## Auxiliary lemmas: stripping and joining buffered lines -/

theorem pyStripL_of_norm {y : List Char} (h1 : noLeadWs y = true)
    (h2 : noTrailWs y = true) : pyStripL y = y := by
  unfold pyStripL
  rw [noLead_dropWhile_self h1]
  have h3 : noLeadWs y.reverse = true := by rw [noLeadWs_reverse]; exact h2
  rw [noLead_dropWhile_self h3, List.reverse_reverse]

theorem pyStripL_idem (l : List Char) : pyStripL (pyStripL l) = pyStripL l :=
  pyStripL_of_norm (pyStripL_noLead l) (pyStripL_noTrail l)

theorem pyStrip_idem (s : String) : pyStrip (pyStrip s) = pyStrip s := by
  unfold pyStrip
  exact congrArg String.mk (pyStripL_idem s.data)

theorem pyStripL_ne_nil_of_head {c : Char} (y : List Char) (hc : isSpaceP c = false) :
    pyStripL (c :: y) ≠ [] := by
  unfold pyStripL
  intro h
  rw [List.reverse_eq_nil_iff] at h
  rw [List.dropWhile_eq_nil_iff] at h
  have hcl : c ∈ ((c :: y).dropWhile isSpaceP).reverse := by
    rw [List.dropWhile_cons, if_neg (by simp [hc])]
    simp
  have h2 := h c hcl
  simp [hc] at h2

theorem pyStrip_ne_empty_head {s : String} {c : Char} {y : List Char}
    (hd : s.data = c :: y) (hc : isSpaceP c = false) : pyStrip s ≠ "" := by
  unfold pyStrip
  rw [hd]
  intro h
  have h2 : pyStripL (c :: y) = [] := by simpa using congrArg String.data h
  exact pyStripL_ne_nil_of_head y hc h2

theorem strip_join_ne_empty {b : String} (rest : List String)
    (hb : b ≠ "") (hsb : pyStrip b = b) : pyStrip (joinSep "\n" (b :: rest)) ≠ "" := by
  have hlead : noLeadWs b.data = true := by
    have h1 := pyStripL_noLead b.data
    have h2 : (pyStrip b).data = b.data := by rw [hsb]
    unfold pyStrip at h2
    simp only [String.data] at h2
    rwa [← h2]
  have hbd : b.data ≠ [] := by
    intro h0
    apply hb
    cases b with
    | mk d =>
      simp only [String.data] at h0
      rw [h0]
  obtain ⟨c, t, hct⟩ : ∃ c t, b.data = c :: t := by
    cases hd : b.data with
    | nil => exact absurd hd hbd
    | cons c t => exact ⟨c, t, rfl⟩
  have hc : isSpaceP c = false := by
    rw [hct] at hlead
    simpa [noLeadWs] using hlead
  cases rest with
  | nil =>
    show pyStrip b ≠ ""
    rw [hsb]
    exact hb
  | cons r2 rs =>
    show pyStrip (b ++ "\n" ++ joinSep "\n" (r2 :: rs)) ≠ ""
    refine pyStrip_ne_empty_head
      (y := t ++ ("\n" ++ joinSep "\n" (r2 :: rs)).data) ?_ hc
    rw [String.data_append, String.data_append, hct]
    simp

/-! ## Auxiliary lemmas: the division walker -/

theorem childDivs_eq (pt : String) (ch : List Elem) :
    processChildDivs pt ch =
      (ch.filter (fun c => tagStartsDiv c.tag && c.tag != pt)).map processDivision := by
  induction ch with
  | nil => rfl
  | cons c cs ih =>
    simp only [processChildDivs, List.filter_cons]
    by_cases h : (tagStartsDiv c.tag && c.tag != pt) = true
    · simp [h, ih]
    · simp only [Bool.not_eq_true] at h
      simp [h, ih]

/-! ## Auxiliary lemmas: the segmenter loop invariant -/

theorem identStep_inv (cur : Option StructuralUnit) (buf : List String)
    (acc : List StructuralUnit) (raw : String)
    (h1 : ∀ u ∈ acc, u.content ≠ "")
    (h2 : ∀ b ∈ buf, b ≠ "" ∧ pyStrip b = b) :
    (∀ u ∈ (identStep (cur, buf, acc) raw).2.2, u.content ≠ "") ∧
      (∀ b ∈ (identStep (cur, buf, acc) raw).2.1, b ≠ "" ∧ pyStrip b = b) := by
  unfold identStep
  by_cases hline : pyStrip raw = ""
  · simp only [hline, if_pos rfl]
    exact ⟨h1, h2⟩
  · rw [if_neg hline]
    cases hcl : codeClassify (pyStrip raw).data with
    | some q =>
      obtain ⟨ty, num, title⟩ := q
      refine ⟨?_, by intro b hb; simp at hb⟩
      intro u hu
      simp only at hu
      cases cur with
      | none => exact h1 u hu
      | some u0 =>
        have hu2 : u ∈ (if buf.isEmpty = true then acc
            else acc ++ [{ u0 with content := pyStrip (joinSep "\n" buf) }]) := hu
        clear hu
        by_cases hbuf : buf.isEmpty = true
        · rw [if_pos hbuf] at hu2
          exact h1 u hu2
        · rw [if_neg hbuf] at hu2
          rw [List.mem_append] at hu2
          rcases hu2 with hu | hu
          · exact h1 u hu
          · rw [List.mem_singleton] at hu
            subst hu
            show pyStrip (joinSep "\n" buf) ≠ ""
            obtain ⟨b, rest, rfl⟩ : ∃ b rest, buf = b :: rest := by
              cases buf with
              | nil => simp at hbuf
              | cons b rest => exact ⟨b, rest, rfl⟩
            have hbgood := h2 b (by simp)
            exact strip_join_ne_empty rest hbgood.1 hbgood.2
    | none =>
      refine ⟨by intro u hu; exact h1 u (by simpa using hu), ?_⟩
      intro b hb
      simp only at hb
      rw [List.mem_append] at hb
      rcases hb with hb | hb
      · exact h2 b hb
      · rw [List.mem_singleton] at hb
        subst hb
        exact ⟨hline, pyStrip_idem raw⟩

theorem foldl_identStep_inv (lines : List String) :
    ∀ cur buf acc, (∀ u ∈ acc, StructuralUnit.content u ≠ "") →
      (∀ b ∈ buf, b ≠ "" ∧ pyStrip b = b) →
      (∀ u ∈ (lines.foldl identStep (cur, buf, acc)).2.2, u.content ≠ "") ∧
        (∀ b ∈ (lines.foldl identStep (cur, buf, acc)).2.1, b ≠ "" ∧ pyStrip b = b) := by
  induction lines with
  | nil => intro cur buf acc h1 h2; exact ⟨h1, h2⟩
  | cons a rest ih =>
    intro cur buf acc h1 h2
    obtain ⟨g1, g2⟩ := identStep_inv cur buf acc a h1 h2
    have hsf : identStep (cur, buf, acc) a =
        ((identStep (cur, buf, acc) a).1, (identStep (cur, buf, acc) a).2.1,
          (identStep (cur, buf, acc) a).2.2) := rfl
    rw [List.foldl_cons, hsf]
    exact ih _ _ _ g1 g2

/-! ## Claim theorems -/

/-- C1 counterexample: on the three-line input, the heading `1 Scope`
matches while no unit is open, then the heading `1.1 General` matches
while the `1 Scope` unit is open with an empty buffer — yet the output
holds only ONE unit: the open unit is discarded, not appended with an
empty content field, refuting the claim that every matched heading
yields exactly one StructuralUnit. -/
theorem c1_empty_unit_counterexample :
    identifySections "1 Scope\n1.1 General\nDetails here." =
      [⟨"subsection", "1.1", "General", "Details here.", "1.1 General"⟩] := by
  decide

/-- C1 amended: when a heading matches while a unit is open with an
empty buffer (and likewise at end of input), the open unit is DISCARDED
rather than appended with empty content — `identify_sections` appends a
unit only together with a nonempty buffered content; consequently every
unit in the output sequence has a nonempty content field. -/
theorem c1_units_have_nonempty_content (text : String) (u : StructuralUnit)
    (hu : u ∈ identifySections text) : u.content ≠ "" := by
  unfold identifySections at hu
  rcases hfold : (splitNl text).foldl identStep (none, [], []) with ⟨cur, buf, acc⟩
  obtain ⟨g1, g2⟩ := foldl_identStep_inv (splitNl text) none [] []
    (by intro x hx; simp at hx) (by intro b hb; simp at hb)
  rw [hfold] at g1 g2
  rw [hfold] at hu
  simp only at hu g1 g2
  cases cur with
  | none => exact g1 u hu
  | some u0 =>
    have hu2 : u ∈ (if buf.isEmpty = true then acc
        else acc ++ [{ u0 with content := pyStrip (joinSep "\n" buf) }]) := hu
    clear hu
    by_cases hbuf : buf.isEmpty = true
    · rw [if_pos hbuf] at hu2
      exact g1 u hu2
    · rw [if_neg hbuf] at hu2
      rw [List.mem_append] at hu2
      rcases hu2 with hu | hu
      · exact g1 u hu
      · rw [List.mem_singleton] at hu
        subst hu
        show pyStrip (joinSep "\n" buf) ≠ ""
        obtain ⟨b, rest, rfl⟩ : ∃ b rest, buf = b :: rest := by
          cases buf with
          | nil => simp at hbuf
          | cons b rest => exact ⟨b, rest, rfl⟩
        have hbgood := g2 b (by simp)
        exact strip_join_ne_empty rest hbgood.1 hbgood.2

/-- C1 witness: a concrete unit of a concrete segmentation satisfies the
membership hypothesis, and the theorem yields its nonempty content. -/
theorem c1_units_have_nonempty_content_witness :
    (⟨"main_section", "1", "Scope", "Hull requirements apply.", "1 Scope"⟩ :
        StructuralUnit) ∈ identifySections "1 Scope\nHull requirements apply." ∧
      (⟨"main_section", "1", "Scope", "Hull requirements apply.", "1 Scope"⟩ :
        StructuralUnit).content ≠ "" :=
  ⟨by decide,
   c1_units_have_nonempty_content "1 Scope\nHull requirements apply." _ (by decide)⟩

/-- C2: on the four-line sample the segmenter produces exactly the two
claimed units, and the content-rendering pass leaves the first content
unchanged while bolding the cross-reference of the second. -/
theorem c2_sample_segmentation :
    identifySections
        "1 Scope\nThis part applies to all vessels.\n1.1 General\nSee 2.3.4 for details." =
      [⟨"main_section", "1", "Scope", "This part applies to all vessels.", "1 Scope"⟩,
       ⟨"subsection", "1.1", "General", "See 2.3.4 for details.", "1.1 General"⟩] ∧
    formatContent "This part applies to all vessels." =
      "This part applies to all vessels." ∧
    formatContent "See 2.3.4 for details." = "See **2.3.4** for details." := by
  refine ⟨by decide, by decide, by decide⟩

/-- C3 counterexample: a tree division whose paragraph body contains the
mandatory keyword `shall` renders WITHOUT any emphasis marker — the XML
pipeline has no keyword-emphasis pass, refuting the claim that the pass
runs in both pipelines. -/
theorem c3_tree_pipeline_counterexample :
    processDivision (Elem.mk "DIV5" [("TYPE", "PART")] none
        [Elem.mk "P" [] (some "Equipment shall be tested.") [] none] none) =
      "\nEquipment shall be tested.\n" ∧
    ("\nEquipment shall be tested.\n".data.all (fun c => c != '*')) = true := by
  refine ⟨by decide, by decide⟩

/-- C3 amended: the keyword-and-reference emphasis pass exists only in
the pattern-based text pipeline (`format_content` bolds x.y.z
references, `Section N` and `Chapter N`, bolds the mandatory terms and
italicises the permissive terms), while the tree pipeline renders a
plain-text paragraph verbatim aside from whitespace cleanup, emitting
no keyword emphasis. -/
theorem c3_keyword_pass_text_pipeline_only :
    formatContent "Equipment shall be tested" = "Equipment **shall** be tested" ∧
    formatContent "testing may be deferred" = "testing *may* be deferred" ∧
    formatContent "See 2.3.4, Section 5 and Chapter 2" =
      "See **2.3.4**, **Section 5** and **Chapter 2**" ∧
    processParagraph (Elem.mk "P" []
        (some "Equipment shall be tested and may be deferred.") [] none) =
      "\nEquipment shall be tested and may be deferred.\n" := by
  refine ⟨by decide, by decide, by decide, by decide⟩

/-- C4 counterexample: a word hyphenated across a page boundary is NOT
rejoined, because `clean_text` runs per page before the pages are
joined — the assembled document still contains the hyphen, refuting the
claim that the cleanup rules run globally over the concatenated text. -/
theorem c4_cross_page_hyphen_counterexample :
    parseDocText [some "requi-", some "rement"] = "requi-\n\nrement" ∧
    ("requi-\n\nrement".data.contains '-') = true := by
  refine ⟨by decide, by decide⟩

/-- C4 amended: the four cleanup rules run in the stated order PER PAGE,
and the cleaned pages are then joined by a blank line; hyphenation is
rejoined only within a single page, never across a page boundary. -/
theorem c4_per_page_cleanup :
    cleanTextA "requi-\nrement" = "requirement" ∧
    parseDocText [some "requi-\nrement"] = "requirement" ∧
    parseDocText [some "requi-", some "rement"] = "requi-\n\nrement" := by
  refine ⟨by decide, by decide, by decide⟩

/-- C5: classifying a line by the pattern list in source order (chapter,
section, main, subsection, subsubsection, item, table, figure) yields
the same first match as the priority order stated by the spec (chapter,
section, table, figure, x.y.z, x.y, x, letter), for every line: the
patterns whose relative order differs are mutually exclusive. -/
theorem c5_pattern_order_equivalent (l : List Char) :
    codeClassify l = specClassify l := by
  unfold codeClassify specClassify
  cases hch : matchChapter l with
  | some p => simp [tagC, hch]
  | none =>
    cases hse : matchSection l with
    | some p => simp [tagC, hch, hse]
    | none =>
      cases hm : matchMain l with
      | some p =>
        obtain ⟨c, r, rfl, hc⟩ := matchMain_head hm
        simp [tagC, hch, hse, hm, main_excl_sub hm, main_excl_subsub hm,
          matchTable_none_of_digit hc, matchFigure_none_of_digit hc]
      | none =>
        cases hsub : matchSub l with
        | some p =>
          obtain ⟨c, r, rfl, hc⟩ := matchSub_head hsub
          simp [tagC, hch, hse, hm, hsub, sub_excl_subsub hsub,
            matchTable_none_of_digit hc, matchFigure_none_of_digit hc]
        | none =>
          cases hss : matchSubsub l with
          | some p =>
            obtain ⟨c, r, rfl, hc⟩ := matchSubsub_head hss
            simp [tagC, hch, hse, hm, hsub, hss,
              matchTable_none_of_digit hc, matchFigure_none_of_digit hc]
          | none =>
            cases hit : matchItem l with
            | some p =>
              obtain ⟨c, r, rfl⟩ := matchItem_parts hit
              simp [tagC, hch, hse, hm, hsub, hss, hit,
                matchTable_none_of_dot, matchFigure_none_of_dot]
            | none =>
              simp [tagC, hch, hse, hm, hsub, hss, hit]

/-- C6 counterexample: a SECTION element whose heading is not numeric is
returned by the section-number formatter unchanged, so its rendered
heading carries NO section sign at all, refuting the claim that the
formatter output contains the sign exactly once for every section
heading. -/
theorem c6_nonnumeric_heading_counterexample :
    processDivision (Elem.mk "DIV8" [("TYPE", "SECTION")] none
        [Elem.mk "HEAD" [] (some "General provisions") [] none] none) =
      "\n###### General provisions\n" ∧
    ("\n###### General provisions\n".data.count '§') = 0 := by
  refine ⟨by decide, by decide⟩

/-- C6 amended: section headings pass through the formatter, which
prepends the section sign exactly when the heading does not already
start with one and its text minus dots and dashes is a nonempty digit
string, and leaves other headings unchanged; for heading text `101.10`
the rendered line is level-6 `###### § 101.10` with exactly one sign,
and an already-prefixed heading is not prefixed again. -/
theorem c6_section_number_formatting :
    processDivision (Elem.mk "DIV8" [("TYPE", "SECTION")] none
        [Elem.mk "HEAD" [] (some "101.10") [] none] none) = "\n###### § 101.10\n" ∧
    ("\n###### § 101.10\n".data.count '§') = 1 ∧
    formatSectionNumber "101.10" = "§ 101.10" ∧
    formatSectionNumber "§ 101.10" = "§ 101.10" ∧
    formatSectionNumber "General provisions" = "General provisions" := by
  refine ⟨by decide, by decide, by decide, by decide, by decide⟩

/-- C7: when the mandatory and permissive keyword patterns have no match
anywhere in the text (every keyword occurrence is already emphasised in
the sense that the scanner finds nothing to rewrite), re-running the
keyword-emphasis pass returns the text unchanged. -/
theorem c7_keyword_pass_noop (s : String) (h1 : hasMandatoryKw s = false)
    (h2 : hasPermissiveKw s = false) : keywordPass s = s := by
  unfold hasMandatoryKw at h1
  unfold hasPermissiveKw at h2
  have e1 : kwSubAux mandatoryKws ['*', '*'] (s.data.length + 1) false s.data = s.data :=
    kwSub_of_scan_false _ _ _ _ _ h1
  unfold keywordPass
  rw [e1]
  rw [kwSub_of_scan_false _ _ _ _ _ h2]

/-- C7 witness: a concrete keyword-free text satisfies both hypotheses
and the pass leaves it unchanged. -/
theorem c7_keyword_pass_noop_witness :
    hasMandatoryKw "Vessels are surveyed." = false ∧
    hasPermissiveKw "Vessels are surveyed." = false ∧
    keywordPass "Vessels are surveyed." = "Vessels are surveyed." :=
  ⟨by decide, by decide, c7_keyword_pass_noop _ (by decide) (by decide)⟩

/-- C8: every rendered division orders its blocks as heading line first,
then the auxiliary blocks in the fixed order authority, source,
editorial note, then the direct child paragraphs, then the recursively
rendered child divisions. -/
theorem c8_division_block_order (e : Elem) :
    processDivision e =
      joinSep "\n" (headingBlocks e ++ auxBlocks e ++ paraBlocks e ++ childDivBlocks e) := by
  cases e with
  | mk tg attrs x ch tl =>
    simp [processDivision, headingBlocks, auxBlocks, paraBlocks, childDivBlocks,
      findChild, findAll, Elem.children, Elem.attrs, Elem.tag, getAttr, childDivs_eq,
      filterTag]

/-- C9: a page whose extraction raises contributes the empty string and
is skipped; the pipeline continues with the remaining pages, and the
assembled document equals the document built from the surrounding pages
alone, in order, with no placeholder inserted. -/
theorem c9_failed_page_skip (ps qs : List (Option String)) :
    parseDocText (ps ++ none :: qs) = parseDocText (ps ++ qs) := by
  simp [parseDocText, pageTexts, List.foldr_append, extractTextFromPage]

/-- C10: every string returned by the tree-pipeline text extractor is
whitespace-normalised: no leading or trailing whitespace, no two
consecutive whitespace characters, and no whitespace directly before
any of the marks `.,:;!?`. -/
theorem c10_extract_text_normalized (e : Elem) :
    wsNormalized (extractTextContent e).data = true := by
  cases e with
  | mk tg a txt ch tl =>
    show wsNormalized (cleanTextE (String.join (optTextPiece txt ++ piecesOf ch))).data = true
    exact cleanTextE_normalized _
